import Mathlib

/-!
Verification of the adaptation-registry core of
`packages/core-plugin-api/src/adaptable-components/AdaptationProvider.tsx`.

The registry is a JavaScript `Map` from a component reference's `id` string to
a value object holding two ordered lists (`propsInterceptors`, `components`).
The provider's `useMemo` body (here `extend`) clones the parent map, deletes
excluded component refs, filters the `components` lists by excluded
plugins/keys, and appends the new adaptations with per-list key deduplication.
`useComponentAdaptations` (here `lookup`) reads the entry for a ref's id, or a
shared empty singleton on a miss.

Because the source mutates the cloned map and its value objects in place, the
embedding uses an explicit heap: a `Store` holds the value objects and map
objects, addressed by natural numbers; each source function is translated into
state-passing style over the `Store`.  Replacement render functions, props
interceptor functions and plugin objects are opaque at this level and are
modelled by identifiers.
-/

namespace AdaptationRegistry

/-- `AdaptableComponentRef`: an opaque reference carrying its `id` string,
which is the map key (`ref.id`). -/
structure CompRef where
  id : String
  deriving DecidableEq

/-- The `spec` of a `ComponentAdaptation`: an optional replacement render
function (`spec.Adaptation`) and an optional props interceptor
(`spec.interceptProps`), both opaque and modelled by identifiers. -/
structure AdaptationSpec where
  Adaptation : Option Nat
  interceptProps : Option Nat
  deriving DecidableEq

/-- `ComponentAdaptation`: target `ref`, `spec`, dedup `key`, and the optional
owning `plugin` (opaque, modelled by an identifier). -/
structure ComponentAdaptation where
  ref : CompRef
  spec : AdaptationSpec
  key : String
  plugin : Option String
  deriving DecidableEq

/-- An element of a `propsInterceptors` list: the source's
`PropsInterceptor` wrapper `{ propsInterceptor, adaptation }`. -/
structure InterceptorEntry where
  propsInterceptor : Nat
  adaptation : ComponentAdaptation
  deriving DecidableEq

/-- An element of a `components` list: the source's `Adaptation` wrapper
`{ component, adaptation }`. -/
structure AdaptEntry where
  component : Nat
  adaptation : ComponentAdaptation
  deriving DecidableEq

/-- `AdaptationMapValue`: the value object held per map key. -/
structure AdaptationMapValue where
  propsInterceptors : List InterceptorEntry
  components : List AdaptEntry
  deriving DecidableEq

/-- The module-level `noAdaptations` singleton returned on lookup misses. -/
def noAdaptations : AdaptationMapValue :=
  { propsInterceptors := [], components := [] }

/-- The contents of a JavaScript `Map` object, in insertion order. -/
abbrev JsMapEntries := List (String × Nat)

/-- The heap: value objects and map objects, addressed by index.  A registry
(`ContextType.adaptationMap`) is an address into `maps`. -/
structure Store where
  vals : List AdaptationMapValue
  maps : List JsMapEntries
  deriving DecidableEq

def Store.getVal (s : Store) (i : Nat) : AdaptationMapValue :=
  s.vals.getD i noAdaptations

def Store.getMap (s : Store) (j : Nat) : JsMapEntries :=
  s.maps.getD j []

def Store.setVal (s : Store) (i : Nat) (v : AdaptationMapValue) : Store :=
  { s with vals := s.vals.set i v }

def Store.setMap (s : Store) (j : Nat) (mp : JsMapEntries) : Store :=
  { s with maps := s.maps.set j mp }

def Store.allocVal (s : Store) (v : AdaptationMapValue) : Nat × Store :=
  (s.vals.length, { s with vals := s.vals ++ [v] })

def Store.allocMap (s : Store) (mp : JsMapEntries) : Nat × Store :=
  (s.maps.length, { s with maps := s.maps ++ [mp] })

/-- `Map.get`: first entry with the given key (keys are unique in a real
`Map`, so "first" is faithful). -/
def jsGet : JsMapEntries → String → Option Nat
  | [], _ => none
  | (k, v) :: rest, key => if k = key then some v else jsGet rest key

/-- `Map.set`: overwrite in place if the key is present, else append. -/
def jsSet : JsMapEntries → String → Nat → JsMapEntries
  | [], key, v => [(key, v)]
  | (k, w) :: rest, key, v =>
      if k = key then (key, v) :: rest else (k, w) :: jsSet rest key v

/-- `Map.delete`: remove the (first, hence only) entry with the given key. -/
def jsDelete : JsMapEntries → String → JsMapEntries
  | [], _ => []
  | (k, w) :: rest, key =>
      if k = key then rest else (k, w) :: jsDelete rest key

/-- `[...map.values()]`, in insertion order. -/
def jsValues (l : JsMapEntries) : List Nat :=
  l.map Prod.snd

/-- The body of `cloneAdaptationMap`'s `map` over `parent.entries()`:
allocate, per entry, a fresh value object with copies of both arrays. -/
def cloneEntries : JsMapEntries → Store → JsMapEntries × Store
  | [], s => ([], s)
  | (k, vid) :: rest, s =>
      let v := s.getVal vid
      let a := s.allocVal
        { components := v.components, propsInterceptors := v.propsInterceptors }
      let t := cloneEntries rest a.2
      ((k, a.1) :: t.1, t.2)

/-- `cloneAdaptationMap(parent)`: clone the map and create new arrays for the
values; `parent = none` models the `undefined` parent (and the `reset` path). -/
def cloneAdaptationMap (parent : Option Nat) (s : Store) : Nat × Store :=
  let p := cloneEntries (match parent with | none => [] | some m => s.getMap m) s
  p.2.allocMap p.1

/-- `ensureMapValue(map, key)`: return the entry's value object, creating an
empty one (and inserting it) on first reference. -/
def ensureMapValue (m : Nat) (key : String) (s : Store) : Nat × Store :=
  match jsGet (s.getMap m) key with
  | some vid => (vid, s)
  | none =>
      let a := s.allocVal { propsInterceptors := [], components := [] }
      (a.1, a.2.setMap m (jsSet (a.2.getMap m) key a.1))

/-- The first block of `appendAdaptationMap`'s `forEach` body: if the spec
carries a replacement (`spec.Adaptation`), push `{ component, adaptation }`
onto the entry's `components` unless an element with the same adaptation key
is already in that list.  The entry's object is read through the store at each
use, mirroring reads through the live `value` object. -/
def appendComponent (vid : Nat) (adaptation : ComponentAdaptation) (s1 : Store) : Store :=
  match adaptation.spec.Adaptation with
  | some comp =>
      if ((s1.getVal vid).components.find? fun c => c.adaptation.key == adaptation.key).isSome
      then s1
      else s1.setVal vid
        { s1.getVal vid with components :=
            (s1.getVal vid).components ++ [{ component := comp, adaptation := adaptation }] }
  | none => s1

/-- The second block of the `forEach` body: same for the props interceptor;
it observes the `components` push done by the first block through the shared
value object. -/
def appendInterceptor (vid : Nat) (adaptation : ComponentAdaptation) (s2 : Store) : Store :=
  match adaptation.spec.interceptProps with
  | some ip =>
      if ((s2.getVal vid).propsInterceptors.find? fun c => c.adaptation.key == adaptation.key).isSome
      then s2
      else s2.setVal vid
        { s2.getVal vid with propsInterceptors :=
            (s2.getVal vid).propsInterceptors ++
              [{ propsInterceptor := ip, adaptation := adaptation }] }
  | none => s2

/-- One iteration of `appendAdaptationMap`'s `forEach`: resolve the target
entry (creating it on first reference) and run the two push blocks on it. -/
def appendOne (m : Nat) (adaptation : ComponentAdaptation) (s : Store) : Store :=
  let e := ensureMapValue m adaptation.ref.id s
  appendInterceptor e.1 adaptation (appendComponent e.1 adaptation e.2)

/-- `appendAdaptationMap(map, adaptations)`. -/
def appendAdaptationMap (m : Nat) : List ComponentAdaptation → Store → Store
  | [], s => s
  | a :: rest, s => appendAdaptationMap m rest (appendOne m a s)

/-- The per-value body of the exclusion step: filter `components` first by
excluded plugins (`!adaptation.plugin || !excludePluginsSet.has(...)`), then
by excluded adaptation keys; `propsInterceptors` is not touched. -/
def filterExcluded (excludePluginsSet excludeSet : List String)
    (v : AdaptationMapValue) : AdaptationMapValue :=
  { v with components :=
      (List.filter (fun e => !(excludeSet.contains e.adaptation.key))
        (List.filter
          (fun e =>
            match e.adaptation.plugin with
            | none => true
            | some p => !(excludePluginsSet.contains p))
          v.components)) }

/-- The `[...adaptationMap.values()].forEach` of the exclusion step. -/
def excludeValues (excludePluginsSet excludeSet : List String) :
    List Nat → Store → Store
  | [], s => s
  | vid :: rest, s =>
      excludeValues excludePluginsSet excludeSet rest
        (s.setVal vid (filterExcluded excludePluginsSet excludeSet (s.getVal vid)))

/-- The `if (excludePlugins || exclude)` block of the provider. -/
def applyExclusions (m : Nat) (excludePlugins : Option (List String))
    (exclude : Option (List ComponentAdaptation)) (s : Store) : Store :=
  if excludePlugins.isSome || exclude.isSome then
    excludeValues (excludePlugins.getD [])
      ((exclude.getD []).map fun e => e.key)
      (jsValues (s.getMap m)) s
  else s

/-- The `excludeComponents` block: delete each ref's id from the map. -/
def deleteComponents (m : Nat) : List CompRef → Store → Store
  | [], s => s
  | r :: rest, s => deleteComponents m rest (s.setMap m (jsDelete (s.getMap m) r.id))

/-- The props of `AdaptationProvider` that drive the `useMemo` body.  A single
(non-array) adaptation or component ref is modelled as a one-element list,
matching the `Array.isArray` normalisation; `none` models an absent prop. -/
structure ExtendOptions where
  adaptations : Option (List ComponentAdaptation)
  reset : Bool
  excludePlugins : Option (List String)
  excludeComponents : Option (List CompRef)
  exclude : Option (List ComponentAdaptation)
  deriving DecidableEq

/-- Empty options: every prop absent, `reset` defaulting to `false`. -/
def noOptions : ExtendOptions :=
  { adaptations := none, reset := false, excludePlugins := none,
    excludeComponents := none, exclude := none }

/-- The `useMemo` body of `AdaptationProvider`: produce the new registry from
the optional parent registry and the props, in the source's fixed order
(reset/clone, excludeComponents, excludePlugins/exclude, adaptations). -/
def extend (parent : Option Nat) (opts : ExtendOptions) (s : Store) : Nat × Store :=
  let c := if opts.reset then cloneAdaptationMap none s else cloneAdaptationMap parent s
  let m := c.1
  let s1 := c.2
  let s2 :=
    match opts.excludeComponents with
    | none => s1
    | some refs => deleteComponents m refs s1
  let s3 := applyExclusions m opts.excludePlugins opts.exclude s2
  let s4 :=
    match opts.adaptations with
    | none => s3
    | some ads => appendAdaptationMap m ads s3
  (m, s4)

/-- `useComponentAdaptations(componentRef)` against registry `m`:
`adaptationMap?.get(componentRef.id) ?? noAdaptations`.  The miss path returns
the module-level singleton and allocates nothing. -/
def useComponentAdaptations (s : Store) (m : Nat) (componentRef : CompRef) :
    AdaptationMapValue :=
  match jsGet (s.getMap m) componentRef.id with
  | some vid => s.getVal vid
  | none => noAdaptations

/-- The spec's name for the read operation. -/
def lookup (s : Store) (m : Nat) (r : CompRef) : AdaptationMapValue :=
  useComponentAdaptations s m r

/-- A registry address is valid in a store when it is in range and every value
address it holds is in range.  Every registry the code publishes satisfies
this. -/
def ValidMap (s : Store) (m : Nat) : Prop :=
  m < s.maps.length ∧ ∀ p ∈ s.getMap m, p.2 < s.vals.length

/-- The value objects of a registry are pairwise distinct heap objects.  Every
registry the code publishes satisfies this (each entry's value object is
allocated fresh). -/
def DistinctVals (s : Store) (m : Nat) : Prop :=
  ((s.getMap m).map Prod.snd).Nodup

instance (s : Store) (m : Nat) : Decidable (ValidMap s m) := by
  unfold ValidMap
  infer_instance

instance (s : Store) (m : Nat) : Decidable (DistinctVals s m) := by
  unfold DistinctVals
  infer_instance

/-! ### Derived views and value-level step functions -/

/-- What a consumer observes for a key against a given entry list: the
dereferenced value object, or the `noAdaptations` singleton. -/
def entryView (s : Store) (es : JsMapEntries) (key : String) : AdaptationMapValue :=
  match jsGet es key with
  | some vid => s.getVal vid
  | none => noAdaptations

/-- What a key's entry looks like against a registry. -/
def viewKey (s : Store) (m : Nat) (key : String) : AdaptationMapValue :=
  entryView s (s.getMap m) key

/-- The value-level effect of the `components` push block on its target
entry. -/
def applyComponentValue (adaptation : ComponentAdaptation) (v : AdaptationMapValue) :
    AdaptationMapValue :=
  match adaptation.spec.Adaptation with
  | some comp =>
      if (v.components.find? fun c => c.adaptation.key == adaptation.key).isSome
      then v
      else { v with components :=
          v.components ++ [{ component := comp, adaptation := adaptation }] }
  | none => v

/-- The value-level effect of the `propsInterceptors` push block on its target
entry. -/
def applyInterceptorValue (adaptation : ComponentAdaptation) (v : AdaptationMapValue) :
    AdaptationMapValue :=
  match adaptation.spec.interceptProps with
  | some ip =>
      if (v.propsInterceptors.find? fun c => c.adaptation.key == adaptation.key).isSome
      then v
      else { v with propsInterceptors :=
          v.propsInterceptors ++ [{ propsInterceptor := ip, adaptation := adaptation }] }
  | none => v

/-- The value-level effect of one `appendAdaptationMap` iteration on its
target entry: push the replacement and/or the interceptor unless an element
with the same key is already in that list. -/
def applyAdaptation (adaptation : ComponentAdaptation) (v : AdaptationMapValue) :
    AdaptationMapValue :=
  applyInterceptorValue adaptation (applyComponentValue adaptation v)

/-- The store `s` extends `s0`: it is at least as large and agrees with `s0`
on every object address below the watermarks `nv` (values) and `nm` (maps). -/
def ExtFrame (nv nm : Nat) (s0 s : Store) : Prop :=
  nv ≤ s.vals.length ∧ nm ≤ s.maps.length ∧
  (∀ i, i < nv → s.getVal i = s0.getVal i) ∧
  (∀ j, j < nm → s.getMap j = s0.getMap j)

/-- The working registry `mId` lives above the watermarks: its address and all
value addresses it holds are fresh. -/
def FreshMap (nv nm mId : Nat) (s : Store) : Prop :=
  nm ≤ mId ∧ ∀ p ∈ s.getMap mId, nv ≤ p.2

/-- Invariant carried through the steps of `extend`. -/
def FrameInv (nv nm mId : Nat) (s0 s : Store) : Prop :=
  ExtFrame nv nm s0 s ∧ FreshMap nv nm mId s ∧ ValidMap s mId ∧ DistinctVals s mId

/-- Props carrying only an `adaptations` list. -/
def adaptationsOnly (ads : List ComponentAdaptation) : ExtendOptions :=
  { adaptations := some ads, reset := false, excludePlugins := none,
    excludeComponents := none, exclude := none }

/-- Props carrying only `reset`. -/
def resetOnly : ExtendOptions :=
  { adaptations := none, reset := true, excludePlugins := none,
    excludeComponents := none, exclude := none }

/-- Props carrying only the plugin/key exclusion lists. -/
def exclusionsOnly (ep : Option (List String))
    (ex : Option (List ComponentAdaptation)) : ExtendOptions :=
  { adaptations := none, reset := false, excludePlugins := ep,
    excludeComponents := none, exclude := ex }

/-- Props carrying `excludePlugins` and `adaptations`. -/
def excludePluginsAndAdapt (ps : List String) (ads : List ComponentAdaptation) :
    ExtendOptions :=
  { adaptations := some ads, reset := false, excludePlugins := some ps,
    excludeComponents := none, exclude := none }

/-- Props carrying `exclude` and `adaptations`. -/
def excludeAndAdapt (exl ads : List ComponentAdaptation) : ExtendOptions :=
  { adaptations := some ads, reset := false, excludePlugins := none,
    excludeComponents := none, exclude := some exl }

/-! ### Concrete sample data used by the witness theorems -/

def refX : CompRef := { id := "X" }

def adA : ComponentAdaptation :=
  { ref := refX, spec := { Adaptation := some 1, interceptProps := none },
    key := "a", plugin := some "P1" }

def adB : ComponentAdaptation :=
  { ref := refX, spec := { Adaptation := some 2, interceptProps := none },
    key := "b", plugin := some "P2" }

def adA2 : ComponentAdaptation :=
  { ref := refX, spec := { Adaptation := some 9, interceptProps := none },
    key := "a", plugin := none }

def adB2 : ComponentAdaptation :=
  { ref := refX, spec := { Adaptation := some 9, interceptProps := none },
    key := "b", plugin := some "P3" }

def entA : AdaptEntry := { component := 1, adaptation := adA }

def entB : AdaptEntry := { component := 2, adaptation := adB }

def storeEmpty : Store := { vals := [], maps := [[]] }

def storeXa : Store :=
  { vals := [{ propsInterceptors := [], components := [entA] }],
    maps := [[("X", 0)]] }

def storeXab : Store :=
  { vals := [{ propsInterceptors := [], components := [entA, entB] }],
    maps := [[("X", 0)]] }

/-! ### Primitive list lemmas -/

theorem listGetD_set_ne {α : Type} (l : List α) (i j : Nat) (v d : α)
    (h : i ≠ j) : (l.set j v).getD i d = l.getD i d := by
  induction l generalizing i j with
  | nil => simp [List.set]
  | cons a t ih =>
    cases j with
    | zero =>
      cases i with
      | zero => exact absurd rfl h
      | succ i => simp [List.set]
    | succ j =>
      cases i with
      | zero => simp [List.set]
      | succ i =>
        simp only [List.set, List.getD_cons_succ]
        exact ih i j fun hh => h (by rw [hh])

theorem listGetD_set_self {α : Type} (l : List α) (i : Nat) (v d : α)
    (h : i < l.length) : (l.set i v).getD i d = v := by
  induction l generalizing i with
  | nil => simp at h
  | cons a t ih =>
    cases i with
    | zero => simp [List.set]
    | succ i =>
      simp only [List.set, List.getD_cons_succ]
      exact ih i (Nat.lt_of_succ_lt_succ h)

theorem listGetD_append_last {α : Type} (l : List α) (v d : α) :
    (l ++ [v]).getD l.length d = v := by
  rw [List.getD_append_right l [v] d l.length (Nat.le_refl _)]
  simp

/-! ### Frame lemmas for the store operations -/

theorem Store.getVal_allocVal_lt (s : Store) (v : AdaptationMapValue) (i : Nat)
    (h : i < s.vals.length) : (s.allocVal v).2.getVal i = s.getVal i := by
  simp only [Store.allocVal, Store.getVal]
  exact List.getD_append s.vals [v] noAdaptations i h

theorem Store.getVal_allocVal_self (s : Store) (v : AdaptationMapValue) :
    (s.allocVal v).2.getVal s.vals.length = v := by
  simp only [Store.allocVal, Store.getVal]
  exact listGetD_append_last s.vals v noAdaptations

theorem Store.getMap_allocVal (s : Store) (v : AdaptationMapValue) (j : Nat) :
    (s.allocVal v).2.getMap j = s.getMap j := rfl

theorem Store.getVal_allocMap (s : Store) (mp : JsMapEntries) (i : Nat) :
    (s.allocMap mp).2.getVal i = s.getVal i := rfl

theorem Store.getMap_allocMap_lt (s : Store) (mp : JsMapEntries) (j : Nat)
    (h : j < s.maps.length) : (s.allocMap mp).2.getMap j = s.getMap j := by
  simp only [Store.allocMap, Store.getMap]
  exact List.getD_append s.maps [mp] [] j h

theorem Store.getMap_allocMap_self (s : Store) (mp : JsMapEntries) :
    (s.allocMap mp).2.getMap s.maps.length = mp := by
  simp only [Store.allocMap, Store.getMap]
  exact listGetD_append_last s.maps mp []

theorem Store.getVal_setVal_self (s : Store) (i : Nat) (v : AdaptationMapValue)
    (h : i < s.vals.length) : (s.setVal i v).getVal i = v := by
  simp only [Store.setVal, Store.getVal]
  exact listGetD_set_self s.vals i v noAdaptations h

theorem Store.getVal_setVal_ne (s : Store) (i j : Nat) (v : AdaptationMapValue)
    (h : i ≠ j) : (s.setVal j v).getVal i = s.getVal i := by
  simp only [Store.setVal, Store.getVal]
  exact listGetD_set_ne s.vals i j v noAdaptations h

theorem Store.getMap_setVal (s : Store) (i : Nat) (v : AdaptationMapValue)
    (j : Nat) : (s.setVal i v).getMap j = s.getMap j := rfl

theorem Store.getVal_setMap (s : Store) (j : Nat) (mp : JsMapEntries) (i : Nat) :
    (s.setMap j mp).getVal i = s.getVal i := rfl

theorem Store.getMap_setMap_self (s : Store) (j : Nat) (mp : JsMapEntries)
    (h : j < s.maps.length) : (s.setMap j mp).getMap j = mp := by
  simp only [Store.setMap, Store.getMap]
  exact listGetD_set_self s.maps j mp [] h

theorem Store.getMap_setMap_ne (s : Store) (i j : Nat) (mp : JsMapEntries)
    (h : i ≠ j) : (s.setMap j mp).getMap i = s.getMap i := by
  simp only [Store.setMap, Store.getMap]
  exact listGetD_set_ne s.maps i j mp [] h

theorem Store.vals_length_setVal (s : Store) (i : Nat) (v : AdaptationMapValue) :
    (s.setVal i v).vals.length = s.vals.length := by
  simp [Store.setVal]

theorem Store.vals_length_setMap (s : Store) (j : Nat) (mp : JsMapEntries) :
    (s.setMap j mp).vals.length = s.vals.length := rfl

theorem Store.maps_length_setVal (s : Store) (i : Nat) (v : AdaptationMapValue) :
    (s.setVal i v).maps.length = s.maps.length := rfl

theorem Store.maps_length_setMap (s : Store) (j : Nat) (mp : JsMapEntries) :
    (s.setMap j mp).maps.length = s.maps.length := by
  simp [Store.setMap]

theorem Store.vals_length_allocVal (s : Store) (v : AdaptationMapValue) :
    (s.allocVal v).2.vals.length = s.vals.length + 1 := by
  simp [Store.allocVal]

theorem Store.maps_length_allocVal (s : Store) (v : AdaptationMapValue) :
    (s.allocVal v).2.maps.length = s.maps.length := rfl

theorem Store.vals_length_allocMap (s : Store) (mp : JsMapEntries) :
    (s.allocMap mp).2.vals.length = s.vals.length := rfl

theorem Store.maps_length_allocMap (s : Store) (mp : JsMapEntries) :
    (s.allocMap mp).2.maps.length = s.maps.length + 1 := by
  simp [Store.allocMap]

/-! ### Lemmas about the JavaScript map primitives -/

theorem jsGet_mem {es : JsMapEntries} {key : String} {v : Nat}
    (h : jsGet es key = some v) : (key, v) ∈ es := by
  induction es with
  | nil => simp [jsGet] at h
  | cons p rest ih =>
    obtain ⟨k, w⟩ := p
    by_cases hk : k = key
    · subst hk
      simp only [jsGet, if_true, eq_self_iff_true, Option.some.injEq] at h
      subst h
      exact List.mem_cons_self _ _
    · simp only [jsGet, if_neg hk] at h
      exact List.mem_cons_of_mem _ (ih h)

theorem jsGet_append_ne {es : JsMapEntries} {key k : String} {v : Nat}
    (h : k ≠ key) : jsGet (es ++ [(k, v)]) key = jsGet es key := by
  induction es with
  | nil => simp [jsGet, if_neg h]
  | cons p rest ih =>
    obtain ⟨k', w⟩ := p
    by_cases hk : k' = key
    · simp [jsGet, if_pos hk]
    · simp only [List.cons_append, jsGet, if_neg hk]
      exact ih

theorem jsGet_append_self {es : JsMapEntries} {k : String} {v : Nat}
    (h : jsGet es k = none) : jsGet (es ++ [(k, v)]) k = some v := by
  induction es with
  | nil => simp [jsGet]
  | cons p rest ih =>
    obtain ⟨k', w⟩ := p
    by_cases hk : k' = k
    · simp [jsGet, if_pos hk] at h
    · simp only [jsGet, if_neg hk] at h
      simp only [List.cons_append, jsGet, if_neg hk]
      exact ih h

theorem jsSet_of_none {es : JsMapEntries} {key : String} {v : Nat}
    (h : jsGet es key = none) : jsSet es key v = es ++ [(key, v)] := by
  induction es with
  | nil => simp [jsSet]
  | cons p rest ih =>
    obtain ⟨k', w⟩ := p
    by_cases hk : k' = key
    · simp [jsGet, if_pos hk] at h
    · simp only [jsGet, if_neg hk] at h
      simp only [jsSet, if_neg hk, List.cons_append]
      rw [ih h]

theorem jsDelete_subset {es : JsMapEntries} {key : String} {p : String × Nat}
    (h : p ∈ jsDelete es key) : p ∈ es := by
  induction es with
  | nil => simp [jsDelete] at h
  | cons q rest ih =>
    obtain ⟨k', w⟩ := q
    by_cases hk : k' = key
    · simp only [jsDelete, if_pos hk] at h
      exact List.mem_cons_of_mem _ h
    · simp only [jsDelete, if_neg hk] at h
      rcases List.mem_cons.mp h with h | h
      · exact h ▸ List.mem_cons_self _ _
      · exact List.mem_cons_of_mem _ (ih h)

theorem jsGet_ne_of_nodup {es : JsMapEntries} {k1 k2 : String} {v1 v2 : Nat}
    (hnd : (es.map Prod.snd).Nodup) (h1 : jsGet es k1 = some v1)
    (h2 : jsGet es k2 = some v2) (hk : k1 ≠ k2) : v1 ≠ v2 := by
  induction es with
  | nil => simp [jsGet] at h1
  | cons p rest ih =>
    obtain ⟨k', w⟩ := p
    simp only [List.map_cons, List.nodup_cons] at hnd
    by_cases e1 : k' = k1
    · subst e1
      simp only [jsGet, if_true, eq_self_iff_true, Option.some.injEq] at h1
      subst h1
      simp only [jsGet, if_neg hk] at h2
      intro he
      exact hnd.1 (he ▸ List.mem_map.mpr ⟨(k2, v2), jsGet_mem h2, rfl⟩)
    · simp only [jsGet, if_neg e1] at h1
      by_cases e2 : k' = k2
      · subst e2
        simp only [jsGet, if_true, eq_self_iff_true, Option.some.injEq] at h2
        subst h2
        intro he
        exact hnd.1 (he ▸ List.mem_map.mpr ⟨(k1, v1), jsGet_mem h1, rfl⟩)
      · simp only [jsGet, if_neg e2] at h2
        exact ih hnd.2 h1 h2

/-! ### Views of a registry -/

theorem lookup_eq_entryView (s : Store) (m : Nat) (r : CompRef) :
    lookup s m r = entryView s (s.getMap m) r.id := rfl

theorem entryView_congr {s s' : Store} {es : JsMapEntries} {n : Nat} (key : String)
    (h1 : ∀ i, i < n → s'.getVal i = s.getVal i)
    (h2 : ∀ p ∈ es, p.2 < n) :
    entryView s' es key = entryView s es key := by
  unfold entryView
  cases hg : jsGet es key with
  | none => rfl
  | some vid => exact h1 vid (h2 _ (jsGet_mem hg))

/-! ### The clone step -/

theorem cloneEntries_spec (es : JsMapEntries) (s : Store)
    (hwf : ∀ p ∈ es, p.2 < s.vals.length) :
    (cloneEntries es s).2.maps = s.maps ∧
    s.vals.length ≤ (cloneEntries es s).2.vals.length ∧
    (∀ i, i < s.vals.length → (cloneEntries es s).2.getVal i = s.getVal i) ∧
    (cloneEntries es s).1.map Prod.fst = es.map Prod.fst ∧
    (∀ key, entryView (cloneEntries es s).2 (cloneEntries es s).1 key =
      entryView s es key) ∧
    (∀ p ∈ (cloneEntries es s).1,
      s.vals.length ≤ p.2 ∧ p.2 < (cloneEntries es s).2.vals.length) ∧
    ((cloneEntries es s).1.map Prod.snd).Nodup := by
  induction es generalizing s with
  | nil =>
    refine ⟨rfl, Nat.le_refl _, fun i _ => rfl, rfl, fun key => rfl, ?_, ?_⟩
    · intro p hp
      simp [cloneEntries] at hp
    · simp [cloneEntries]
  | cons p rest ih =>
    obtain ⟨k, vid⟩ := p
    have hvid : vid < s.vals.length := hwf (k, vid) (List.mem_cons_self _ _)
    have hstep : cloneEntries ((k, vid) :: rest) s =
        ((k, s.vals.length) ::
          (cloneEntries rest ((s.allocVal (s.getVal vid)).2)).1,
         (cloneEntries rest ((s.allocVal (s.getVal vid)).2)).2) := rfl
    have hlen1 : ((s.allocVal (s.getVal vid)).2).vals.length = s.vals.length + 1 :=
      Store.vals_length_allocVal s _
    have hrest : ∀ p ∈ rest, p.2 < ((s.allocVal (s.getVal vid)).2).vals.length := by
      intro p hp
      rw [hlen1]
      exact Nat.lt_succ_of_lt (hwf p (List.mem_cons_of_mem _ hp))
    obtain ⟨ihmaps, ihlen, ihget, ihkeys, ihview, ihfresh, ihnd⟩ :=
      ih ((s.allocVal (s.getVal vid)).2) hrest
    have hle1 : s.vals.length ≤ ((s.allocVal (s.getVal vid)).2).vals.length := by
      rw [hlen1]
      exact Nat.le_succ _
    rw [hstep]
    refine ⟨ihmaps, Nat.le_trans hle1 ihlen, ?_, ?_, ?_, ?_, ?_⟩
    · intro i hi
      rw [ihget i (Nat.lt_of_lt_of_le hi hle1)]
      exact Store.getVal_allocVal_lt s _ i hi
    · simp only [List.map_cons]
      rw [ihkeys]
    · intro key
      by_cases hkey : k = key
      · simp only [entryView, jsGet, if_pos hkey]
        have hn : s.vals.length < ((s.allocVal (s.getVal vid)).2).vals.length := by
          rw [hlen1]
          exact Nat.lt_succ_self _
        rw [ihget s.vals.length hn]
        exact Store.getVal_allocVal_self s _
      · simp only [entryView, jsGet, if_neg hkey]
        have h1 := ihview key
        simp only [entryView] at h1
        rw [h1]
        have h2 := @entryView_congr s ((s.allocVal (s.getVal vid)).2) rest
          s.vals.length key
          (fun i hi => Store.getVal_allocVal_lt s _ i hi)
          (fun p hp => hwf p (List.mem_cons_of_mem _ hp))
        simp only [entryView] at h2
        exact h2
    · intro p hp
      rcases List.mem_cons.mp hp with h | h
      · subst h
        refine ⟨Nat.le_refl _, ?_⟩
        have hn : s.vals.length < ((s.allocVal (s.getVal vid)).2).vals.length := by
          rw [hlen1]
          exact Nat.lt_succ_self _
        exact Nat.lt_of_lt_of_le hn ihlen
      · obtain ⟨hf1, hf2⟩ := ihfresh p h
        exact ⟨Nat.le_trans hle1 hf1, hf2⟩
    · simp only [List.map_cons]
      refine List.nodup_cons.mpr ⟨?_, ihnd⟩
      intro hmem
      obtain ⟨q, hq, hq2⟩ := List.mem_map.mp hmem
      obtain ⟨hf1, _⟩ := ihfresh q hq
      rw [hq2, hlen1] at hf1
      exact Nat.not_succ_le_self _ hf1

theorem cloneAdaptationMap_spec (m : Nat) (s : Store)
    (_hm : m < s.maps.length) (hwf : ∀ p ∈ s.getMap m, p.2 < s.vals.length) :
    (∀ r : CompRef,
      lookup (cloneAdaptationMap (some m) s).2 (cloneAdaptationMap (some m) s).1 r =
        lookup s m r) ∧
    ValidMap (cloneAdaptationMap (some m) s).2 (cloneAdaptationMap (some m) s).1 ∧
    DistinctVals (cloneAdaptationMap (some m) s).2 (cloneAdaptationMap (some m) s).1 ∧
    s.vals.length ≤ (cloneAdaptationMap (some m) s).2.vals.length ∧
    s.maps.length ≤ (cloneAdaptationMap (some m) s).2.maps.length ∧
    (∀ i, i < s.vals.length → (cloneAdaptationMap (some m) s).2.getVal i = s.getVal i) ∧
    (∀ j, j < s.maps.length → (cloneAdaptationMap (some m) s).2.getMap j = s.getMap j) ∧
    s.maps.length ≤ (cloneAdaptationMap (some m) s).1 ∧
    (∀ p ∈ (cloneAdaptationMap (some m) s).2.getMap (cloneAdaptationMap (some m) s).1,
      s.vals.length ≤ p.2) := by
  obtain ⟨hmaps, hlen, hget, _, hview, hfresh, hnd⟩ := cloneEntries_spec (s.getMap m) s hwf
  have hres : cloneAdaptationMap (some m) s =
      ((cloneEntries (s.getMap m) s).2.maps.length,
       ((cloneEntries (s.getMap m) s).2.allocMap (cloneEntries (s.getMap m) s).1).2) := rfl
  have hid : (cloneAdaptationMap (some m) s).1 = s.maps.length := by
    rw [hres]
    simp only
    rw [hmaps]
  have hgm : (cloneAdaptationMap (some m) s).2.getMap (cloneAdaptationMap (some m) s).1 =
      (cloneEntries (s.getMap m) s).1 := by
    rw [hres]
    simp only
    exact Store.getMap_allocMap_self _ _
  have hgv : ∀ i, (cloneAdaptationMap (some m) s).2.getVal i =
      (cloneEntries (s.getMap m) s).2.getVal i := fun i => rfl
  have hlen2 : (cloneAdaptationMap (some m) s).2.vals.length =
      (cloneEntries (s.getMap m) s).2.vals.length := rfl
  have hmlen : (cloneAdaptationMap (some m) s).2.maps.length = s.maps.length + 1 := by
    rw [hres]
    simp only
    rw [Store.maps_length_allocMap, hmaps]
  refine ⟨?_, ⟨?_, ?_⟩, ?_, ?_, ?_, ?_, ?_, ?_, ?_⟩
  · intro r
    rw [lookup_eq_entryView, lookup_eq_entryView, hgm]
    have h1 := hview r.id
    have h2 : entryView (cloneAdaptationMap (some m) s).2 (cloneEntries (s.getMap m) s).1 r.id =
        entryView (cloneEntries (s.getMap m) s).2 (cloneEntries (s.getMap m) s).1 r.id := by
      unfold entryView
      cases jsGet (cloneEntries (s.getMap m) s).1 r.id with
      | none => rfl
      | some vid => exact hgv vid
    rw [h2, h1]
  · rw [hid, hmlen]
    exact Nat.lt_succ_self _
  · rw [hgm]
    intro p hp
    rw [hlen2]
    exact (hfresh p hp).2
  · unfold DistinctVals
    rw [hgm]
    exact hnd
  · rw [hlen2]
    exact hlen
  · rw [hmlen]
    exact Nat.le_succ _
  · intro i hi
    rw [hgv i]
    exact hget i hi
  · intro j hj
    rw [hres]
    simp only
    rw [Store.getMap_allocMap_lt _ _ j (by rw [hmaps]; exact hj)]
    have hx : (cloneEntries (s.getMap m) s).2.maps.getD j [] = s.maps.getD j [] := by
      rw [hmaps]
    exact hx
  · rw [hid]
  · rw [hgm]
    intro p hp
    exact (hfresh p hp).1

theorem cloneAdaptationMap_none_spec (s : Store) :
    (∀ r : CompRef,
      lookup (cloneAdaptationMap none s).2 (cloneAdaptationMap none s).1 r =
        noAdaptations) ∧
    (cloneAdaptationMap none s).2.getMap (cloneAdaptationMap none s).1 = [] ∧
    (cloneAdaptationMap none s).2.vals = s.vals ∧
    (cloneAdaptationMap none s).2.maps = s.maps ++ [[]] ∧
    (cloneAdaptationMap none s).1 = s.maps.length := by
  have hres : cloneAdaptationMap none s = (s.maps.length, (s.allocMap []).2) := rfl
  have hgm : (cloneAdaptationMap none s).2.getMap (cloneAdaptationMap none s).1 = [] := by
    rw [hres]
    exact Store.getMap_allocMap_self s []
  refine ⟨?_, hgm, rfl, rfl, rfl⟩
  intro r
  rw [lookup_eq_entryView, hgm]
  rfl

/-! ### The adaptations step -/

theorem lookup_eq_viewKey (s : Store) (m : Nat) (r : CompRef) :
    lookup s m r = viewKey s m r.id := rfl

theorem ensureMapValue_hit {s : Store} {m : Nat} {key : String} {vid : Nat}
    (h : jsGet (s.getMap m) key = some vid) :
    ensureMapValue m key s = (vid, s) := by
  unfold ensureMapValue
  rw [h]

theorem ensureMapValue_miss {s : Store} {m : Nat} {key : String}
    (h : jsGet (s.getMap m) key = none) (hm : m < s.maps.length) :
    (ensureMapValue m key s).1 = s.vals.length ∧
    (ensureMapValue m key s).2.getMap m = s.getMap m ++ [(key, s.vals.length)] ∧
    (∀ j, j ≠ m → (ensureMapValue m key s).2.getMap j = s.getMap j) ∧
    (ensureMapValue m key s).2.getVal s.vals.length = noAdaptations ∧
    (∀ i, i < s.vals.length → (ensureMapValue m key s).2.getVal i = s.getVal i) ∧
    (ensureMapValue m key s).2.vals.length = s.vals.length + 1 ∧
    (ensureMapValue m key s).2.maps.length = s.maps.length := by
  have hres : ensureMapValue m key s =
      ((s.allocVal noAdaptations).1,
        (s.allocVal noAdaptations).2.setMap m
          (jsSet ((s.allocVal noAdaptations).2.getMap m) key (s.allocVal noAdaptations).1)) := by
    unfold ensureMapValue
    rw [h]
    rfl
  have hgm0 : (s.allocVal noAdaptations).2.getMap m = s.getMap m := rfl
  have hm' : m < (s.allocVal noAdaptations).2.maps.length := by
    rw [Store.maps_length_allocVal]
    exact hm
  rw [hres]
  refine ⟨rfl, ?_, ?_, ?_, ?_, ?_, ?_⟩
  · rw [Store.getMap_setMap_self _ _ _ hm', hgm0, jsSet_of_none h]
    rfl
  · intro j hj
    rw [Store.getMap_setMap_ne _ _ _ _ hj]
    rfl
  · rw [Store.getVal_setMap]
    exact Store.getVal_allocVal_self s noAdaptations
  · intro i hi
    rw [Store.getVal_setMap]
    exact Store.getVal_allocVal_lt s noAdaptations i hi
  · rw [Store.vals_length_setMap, Store.vals_length_allocVal]
  · rw [Store.maps_length_setMap, Store.maps_length_allocVal]

theorem listSet_getD_self {α : Type} (l : List α) (i : Nat) (d : α) :
    l.set i (l.getD i d) = l := by
  induction l generalizing i with
  | nil => rfl
  | cons a t ih =>
    cases i with
    | zero => rfl
    | succ i =>
      simp only [List.set, List.getD_cons_succ]
      rw [ih]

theorem Store.setVal_getVal_self (s : Store) (i : Nat) :
    s.setVal i (s.getVal i) = s := by
  unfold Store.setVal Store.getVal
  rw [listSet_getD_self]

theorem Store.setVal_setVal (s : Store) (i : Nat) (x y : AdaptationMapValue) :
    (s.setVal i x).setVal i y = s.setVal i y := by
  unfold Store.setVal
  simp only
  rw [List.set_set]

theorem appendComponent_eq (vid : Nat) (a : ComponentAdaptation) (s1 : Store) :
    appendComponent vid a s1 = s1.setVal vid (applyComponentValue a (s1.getVal vid)) := by
  unfold appendComponent applyComponentValue
  cases ha : a.spec.Adaptation with
  | none => exact (Store.setVal_getVal_self s1 vid).symm
  | some comp =>
    cases hfc : ((s1.getVal vid).components.find? fun c =>
        c.adaptation.key == a.key).isSome with
    | true =>
      simp only [eq_self_iff_true, if_true]
      exact (Store.setVal_getVal_self s1 vid).symm
    | false =>
      simp only [Bool.false_eq_true, if_false]

theorem appendInterceptor_eq (vid : Nat) (a : ComponentAdaptation) (s2 : Store) :
    appendInterceptor vid a s2 = s2.setVal vid (applyInterceptorValue a (s2.getVal vid)) := by
  unfold appendInterceptor applyInterceptorValue
  cases ha : a.spec.interceptProps with
  | none => exact (Store.setVal_getVal_self s2 vid).symm
  | some ip =>
    cases hfi : ((s2.getVal vid).propsInterceptors.find? fun c =>
        c.adaptation.key == a.key).isSome with
    | true =>
      simp only [eq_self_iff_true, if_true]
      exact (Store.setVal_getVal_self s2 vid).symm
    | false =>
      simp only [Bool.false_eq_true, if_false]

theorem appendOne_eq (m : Nat) (a : ComponentAdaptation) (s : Store)
    (hvid : (ensureMapValue m a.ref.id s).1 < (ensureMapValue m a.ref.id s).2.vals.length) :
    appendOne m a s =
      (ensureMapValue m a.ref.id s).2.setVal (ensureMapValue m a.ref.id s).1
        (applyAdaptation a
          ((ensureMapValue m a.ref.id s).2.getVal (ensureMapValue m a.ref.id s).1)) := by
  show appendInterceptor (ensureMapValue m a.ref.id s).1 a
      (appendComponent (ensureMapValue m a.ref.id s).1 a (ensureMapValue m a.ref.id s).2) = _
  rw [appendComponent_eq]
  have hvid2 : (ensureMapValue m a.ref.id s).1 <
      ((ensureMapValue m a.ref.id s).2.setVal (ensureMapValue m a.ref.id s).1
        (applyComponentValue a
          ((ensureMapValue m a.ref.id s).2.getVal (ensureMapValue m a.ref.id s).1))).vals.length := by
    rw [Store.vals_length_setVal]
    exact hvid
  rw [appendInterceptor_eq]
  rw [Store.getVal_setVal_self _ _ _ hvid]
  rw [Store.setVal_setVal]
  rfl

theorem appendOne_hit {s : Store} {m : Nat} {a : ComponentAdaptation} {vid : Nat}
    (hv : ValidMap s m) (hg : jsGet (s.getMap m) a.ref.id = some vid) :
    (∀ j, (appendOne m a s).getMap j = s.getMap j) ∧
    (appendOne m a s).getVal vid = applyAdaptation a (s.getVal vid) ∧
    (∀ i, i ≠ vid → (appendOne m a s).getVal i = s.getVal i) ∧
    (appendOne m a s).vals.length = s.vals.length ∧
    (appendOne m a s).maps.length = s.maps.length := by
  have hvid : vid < s.vals.length := hv.2 _ (jsGet_mem hg)
  have he : ensureMapValue m a.ref.id s = (vid, s) := ensureMapValue_hit hg
  have heq := appendOne_eq m a s (by rw [he]; exact hvid)
  rw [he] at heq
  simp only at heq
  rw [heq]
  refine ⟨fun j => Store.getMap_setVal _ _ _ _, ?_, ?_, ?_, rfl⟩
  · exact Store.getVal_setVal_self s vid _ hvid
  · intro i hi
    exact Store.getVal_setVal_ne s i vid _ hi
  · exact Store.vals_length_setVal s vid _

theorem appendOne_miss {s : Store} {m : Nat} {a : ComponentAdaptation}
    (hv : ValidMap s m) (hg : jsGet (s.getMap m) a.ref.id = none) :
    (appendOne m a s).getMap m = s.getMap m ++ [(a.ref.id, s.vals.length)] ∧
    (∀ j, j ≠ m → (appendOne m a s).getMap j = s.getMap j) ∧
    (appendOne m a s).getVal s.vals.length = applyAdaptation a noAdaptations ∧
    (∀ i, i < s.vals.length → (appendOne m a s).getVal i = s.getVal i) ∧
    (appendOne m a s).vals.length = s.vals.length + 1 ∧
    (appendOne m a s).maps.length = s.maps.length := by
  obtain ⟨hid, hgm, hgj, hgn, hgi, hlen, hmlen⟩ := ensureMapValue_miss hg hv.1
  have hvid : (ensureMapValue m a.ref.id s).1 < (ensureMapValue m a.ref.id s).2.vals.length := by
    rw [hid, hlen]
    exact Nat.lt_succ_self _
  have heq := appendOne_eq m a s hvid
  rw [heq]
  have hval : (ensureMapValue m a.ref.id s).2.getVal (ensureMapValue m a.ref.id s).1 =
      noAdaptations := by
    rw [hid]
    exact hgn
  refine ⟨?_, ?_, ?_, ?_, ?_, ?_⟩
  · rw [Store.getMap_setVal, hgm]
  · intro j hj
    rw [Store.getMap_setVal]
    exact hgj j hj
  · rw [hval, hid]
    exact Store.getVal_setVal_self _ _ _ (by rw [hlen]; exact Nat.lt_succ_self _)
  · intro i hi
    have hne : i ≠ (ensureMapValue m a.ref.id s).1 := by
      rw [hid]
      exact Nat.ne_of_lt hi
    rw [Store.getVal_setVal_ne _ _ _ _ hne]
    exact hgi i hi
  · rw [Store.vals_length_setVal]
    exact hlen
  · rw [Store.maps_length_setVal]
    exact hmlen

theorem appendOne_wf {s : Store} {m : Nat} (a : ComponentAdaptation)
    (hv : ValidMap s m) (hnd : DistinctVals s m) :
    ValidMap (appendOne m a s) m ∧ DistinctVals (appendOne m a s) m := by
  cases hg : jsGet (s.getMap m) a.ref.id with
  | some vid =>
    obtain ⟨h1, _, _, h4, h5⟩ := appendOne_hit hv hg
    refine ⟨⟨?_, ?_⟩, ?_⟩
    · rw [h5]
      exact hv.1
    · intro p hp
      rw [h4]
      exact hv.2 p (by rw [h1 m] at hp; exact hp)
    · unfold DistinctVals
      rw [h1 m]
      exact hnd
  | none =>
    obtain ⟨h1, _, _, _, h5, h6⟩ := appendOne_miss hv hg
    refine ⟨⟨?_, ?_⟩, ?_⟩
    · rw [h6]
      exact hv.1
    · intro p hp
      rw [h1] at hp
      rw [h5]
      rcases List.mem_append.mp hp with h | h
      · exact Nat.lt_succ_of_lt (hv.2 p h)
      · simp only [List.mem_singleton] at h
        rw [h]
        exact Nat.lt_succ_self _
    · unfold DistinctVals
      rw [h1, List.map_append]
      refine List.nodup_append.mpr ⟨hnd, List.nodup_singleton _, ?_⟩
      intro x hx hx2
      simp only [List.map_cons, List.map_nil, List.mem_singleton] at hx2
      obtain ⟨q, hq, hq2⟩ := List.mem_map.mp hx
      have := hv.2 q hq
      rw [hq2, hx2] at this
      exact Nat.lt_irrefl _ this

theorem appendOne_view_target {s : Store} {m : Nat} {a : ComponentAdaptation}
    (hv : ValidMap s m) :
    viewKey (appendOne m a s) m a.ref.id = applyAdaptation a (viewKey s m a.ref.id) := by
  cases hg : jsGet (s.getMap m) a.ref.id with
  | some vid =>
    obtain ⟨h1, h2, _, _, _⟩ := appendOne_hit hv hg
    unfold viewKey entryView
    rw [h1 m]
    simp only [hg]
    exact h2
  | none =>
    obtain ⟨h1, _, h3, _, _, _⟩ := appendOne_miss hv hg
    unfold viewKey entryView
    rw [h1]
    simp only [jsGet_append_self hg, hg]
    exact h3

theorem appendOne_view_other {s : Store} {m : Nat} {a : ComponentAdaptation}
    (hv : ValidMap s m) (hnd : DistinctVals s m) (key : String)
    (hk : key ≠ a.ref.id) :
    viewKey (appendOne m a s) m key = viewKey s m key := by
  cases hg : jsGet (s.getMap m) a.ref.id with
  | some vid =>
    obtain ⟨h1, _, h3, _, _⟩ := appendOne_hit hv hg
    unfold viewKey entryView
    rw [h1 m]
    cases hg2 : jsGet (s.getMap m) key with
    | none => rfl
    | some vid2 =>
      exact h3 vid2 (jsGet_ne_of_nodup hnd hg2 hg hk)
  | none =>
    obtain ⟨h1, _, _, h4, _, _⟩ := appendOne_miss hv hg
    unfold viewKey entryView
    rw [h1, jsGet_append_ne fun h => hk h.symm]
    cases hg2 : jsGet (s.getMap m) key with
    | none => rfl
    | some vid2 =>
      exact h4 vid2 (hv.2 _ (jsGet_mem hg2))

theorem appendAdaptationMap_wf {m : Nat} :
    ∀ (ads : List ComponentAdaptation) (s : Store), ValidMap s m → DistinctVals s m →
    ValidMap (appendAdaptationMap m ads s) m ∧
    DistinctVals (appendAdaptationMap m ads s) m
  | [], s, hv, hnd => ⟨hv, hnd⟩
  | a :: rest, s, hv, hnd =>
    have h := appendOne_wf a hv hnd
    appendAdaptationMap_wf rest (appendOne m a s) h.1 h.2

theorem applyInterceptorValue_components (a : ComponentAdaptation)
    (v : AdaptationMapValue) :
    (applyInterceptorValue a v).components = v.components := by
  unfold applyInterceptorValue
  cases a.spec.interceptProps with
  | none => rfl
  | some ip =>
    cases hfi : (v.propsInterceptors.find? fun c => c.adaptation.key == a.key).isSome with
    | true => simp only [eq_self_iff_true, if_true]
    | false => simp only [Bool.false_eq_true, if_false]

theorem applyComponentValue_grow (a : ComponentAdaptation) (v : AdaptationMapValue) :
    ∃ tl, (applyComponentValue a v).components = v.components ++ tl := by
  unfold applyComponentValue
  cases a.spec.Adaptation with
  | none => exact ⟨[], (List.append_nil _).symm⟩
  | some comp =>
    cases hfc : (v.components.find? fun c => c.adaptation.key == a.key).isSome with
    | true =>
      simp only [eq_self_iff_true, if_true]
      exact ⟨[], (List.append_nil _).symm⟩
    | false =>
      simp only [Bool.false_eq_true, if_false]
      exact ⟨[{ component := comp, adaptation := a }], rfl⟩

theorem applyAdaptation_components_grow (a : ComponentAdaptation)
    (v : AdaptationMapValue) :
    ∃ tl, (applyAdaptation a v).components = v.components ++ tl := by
  unfold applyAdaptation
  rw [applyInterceptorValue_components]
  exact applyComponentValue_grow a v

theorem appendAdaptationMap_components_grow {m : Nat} :
    ∀ (ads : List ComponentAdaptation) (s : Store), ValidMap s m → DistinctVals s m →
    ∀ key, ∃ tl, (viewKey (appendAdaptationMap m ads s) m key).components =
      (viewKey s m key).components ++ tl
  | [], s, _, _, key => ⟨[], (List.append_nil _).symm⟩
  | a :: rest, s, hv, hnd, key => by
    have hwf := appendOne_wf a hv hnd
    obtain ⟨tl2, h2⟩ :=
      appendAdaptationMap_components_grow rest (appendOne m a s) hwf.1 hwf.2 key
    show ∃ tl, (viewKey (appendAdaptationMap m rest (appendOne m a s)) m key).components =
      (viewKey s m key).components ++ tl
    by_cases hkey : key = a.ref.id
    · subst hkey
      obtain ⟨tl1, h1⟩ := applyAdaptation_components_grow a (viewKey s m a.ref.id)
      refine ⟨tl1 ++ tl2, ?_⟩
      rw [h2, appendOne_view_target hv, h1, List.append_assoc]
    · refine ⟨tl2, ?_⟩
      rw [h2, appendOne_view_other hv hnd key hkey]

/-! ### The exclusion steps -/

theorem filterExcluded_props (ps ks : List String) (v : AdaptationMapValue) :
    (filterExcluded ps ks v).propsInterceptors = v.propsInterceptors := rfl

theorem filterExcluded_noAdaptations (ps ks : List String) :
    filterExcluded ps ks noAdaptations = noAdaptations := rfl

theorem applyExclusions_none (m : Nat) (s : Store) :
    applyExclusions m none none s = s := rfl

theorem excludeValues_spec (ps ks : List String) :
    ∀ (vids : List Nat) (s : Store), vids.Nodup → (∀ v ∈ vids, v < s.vals.length) →
    (∀ i, i ∈ vids →
      (excludeValues ps ks vids s).getVal i = filterExcluded ps ks (s.getVal i)) ∧
    (∀ i, i ∉ vids → (excludeValues ps ks vids s).getVal i = s.getVal i) ∧
    (excludeValues ps ks vids s).maps = s.maps ∧
    (excludeValues ps ks vids s).vals.length = s.vals.length
  | [], s, _, _ => ⟨fun i hi => absurd hi (List.not_mem_nil i), fun _ _ => rfl, rfl, rfl⟩
  | v :: rest, s, hnd, hb => by
    have hstep : excludeValues ps ks (v :: rest) s =
        excludeValues ps ks rest (s.setVal v (filterExcluded ps ks (s.getVal v))) := rfl
    have hv : v < s.vals.length := hb v (List.mem_cons_self _ _)
    have hnotmem : v ∉ rest := (List.nodup_cons.mp hnd).1
    have hb1 : ∀ w ∈ rest, w <
        (s.setVal v (filterExcluded ps ks (s.getVal v))).vals.length := by
      intro w hw
      rw [Store.vals_length_setVal]
      exact hb w (List.mem_cons_of_mem _ hw)
    obtain ⟨ih1, ih2, ih3, ih4⟩ := excludeValues_spec ps ks rest
      (s.setVal v (filterExcluded ps ks (s.getVal v))) (List.nodup_cons.mp hnd).2 hb1
    refine ⟨?_, ?_, ?_, ?_⟩
    · intro i hi
      rw [hstep]
      rcases List.mem_cons.mp hi with h | h
      · subst h
        rw [ih2 i hnotmem, Store.getVal_setVal_self _ _ _ hv]
      · rw [ih1 i h, Store.getVal_setVal_ne _ i v _ (fun he => hnotmem (he ▸ h))]
    · intro i hi
      have hiv : i ≠ v := fun he => hi (he ▸ List.mem_cons_self _ _)
      have hir : i ∉ rest := fun hr => hi (List.mem_cons_of_mem _ hr)
      rw [hstep, ih2 i hir, Store.getVal_setVal_ne _ i v _ hiv]
    · rw [hstep, ih3]
      rfl
    · rw [hstep, ih4, Store.vals_length_setVal]

theorem applyExclusions_spec {s : Store} {m : Nat} (hv : ValidMap s m)
    (hnd : DistinctVals s m) (ep : Option (List String))
    (ex : Option (List ComponentAdaptation))
    (hc : (ep.isSome || ex.isSome) = true) :
    (∀ key, viewKey (applyExclusions m ep ex s) m key =
      filterExcluded (ep.getD []) ((ex.getD []).map fun e => e.key)
        (viewKey s m key)) ∧
    ValidMap (applyExclusions m ep ex s) m ∧
    DistinctVals (applyExclusions m ep ex s) m := by
  have hstep : applyExclusions m ep ex s =
      excludeValues (ep.getD []) ((ex.getD []).map fun e => e.key)
        (jsValues (s.getMap m)) s := by
    unfold applyExclusions
    rw [hc]
    simp only [eq_self_iff_true, if_true]
  have hndv : (jsValues (s.getMap m)).Nodup := hnd
  have hbv : ∀ v ∈ jsValues (s.getMap m), v < s.vals.length := by
    intro v hvm
    obtain ⟨p, hp, hp2⟩ := List.mem_map.mp hvm
    exact hp2 ▸ hv.2 p hp
  obtain ⟨h1, h2, h3, h4⟩ := excludeValues_spec (ep.getD [])
    ((ex.getD []).map fun e => e.key) (jsValues (s.getMap m)) s hndv hbv
  have hgm : ∀ j, (excludeValues (ep.getD []) ((ex.getD []).map fun e => e.key)
      (jsValues (s.getMap m)) s).getMap j = s.getMap j := by
    intro j
    show (excludeValues (ep.getD []) ((ex.getD []).map fun e => e.key)
      (jsValues (s.getMap m)) s).maps.getD j [] = s.maps.getD j []
    rw [h3]
  have hml : (excludeValues (ep.getD []) ((ex.getD []).map fun e => e.key)
      (jsValues (s.getMap m)) s).maps.length = s.maps.length := by
    rw [h3]
  rw [hstep]
  refine ⟨?_, ⟨?_, ?_⟩, ?_⟩
  · intro key
    unfold viewKey entryView
    rw [hgm m]
    cases hg : jsGet (s.getMap m) key with
    | none => rfl
    | some vid =>
      exact h1 vid (List.mem_map.mpr ⟨_, jsGet_mem hg, rfl⟩)
  · rw [hml]
    exact hv.1
  · intro p hp
    rw [hgm m] at hp
    rw [h4]
    exact hv.2 p hp
  · unfold DistinctVals
    rw [hgm m]
    exact hnd

/-! ### The delete step -/

theorem jsDelete_sublist (es : JsMapEntries) (key : String) :
    List.Sublist (jsDelete es key) es := by
  induction es with
  | nil => exact List.Sublist.refl _
  | cons p rest ih =>
    obtain ⟨k, w⟩ := p
    by_cases hk : k = key
    · simp only [jsDelete, if_pos hk]
      exact List.sublist_cons_self _ _
    · simp only [jsDelete, if_neg hk]
      exact List.Sublist.cons₂ _ ih

theorem Store.getMap_setMap_oob (s : Store) (j : Nat) (mp : JsMapEntries)
    (h : ¬ j < s.maps.length) : (s.setMap j mp).getMap j = s.getMap j := by
  unfold Store.setMap Store.getMap
  simp only
  rw [List.getD_eq_default _ _ (by rw [List.length_set]; exact Nat.le_of_not_lt h),
    List.getD_eq_default _ _ (Nat.le_of_not_lt h)]

theorem deleteComponents_spec {m : Nat} :
    ∀ (refs : List CompRef) (s : Store),
    (deleteComponents m refs s).vals = s.vals ∧
    (∀ j, j ≠ m → (deleteComponents m refs s).getMap j = s.getMap j) ∧
    List.Sublist ((deleteComponents m refs s).getMap m) (s.getMap m) ∧
    (deleteComponents m refs s).maps.length = s.maps.length
  | [], s => ⟨rfl, fun _ _ => rfl, List.Sublist.refl _, rfl⟩
  | r :: rest, s => by
    have hstep : deleteComponents m (r :: rest) s =
        deleteComponents m rest (s.setMap m (jsDelete (s.getMap m) r.id)) := rfl
    obtain ⟨ih1, ih2, ih3, ih4⟩ := deleteComponents_spec rest
      (s.setMap m (jsDelete (s.getMap m) r.id))
    have hsub : List.Sublist
        ((s.setMap m (jsDelete (s.getMap m) r.id)).getMap m) (s.getMap m) := by
      by_cases hm : m < s.maps.length
      · rw [Store.getMap_setMap_self _ _ _ hm]
        exact jsDelete_sublist _ _
      · rw [Store.getMap_setMap_oob _ _ _ hm]
    refine ⟨?_, ?_, ?_, ?_⟩
    · rw [hstep, ih1]
      rfl
    · intro j hj
      rw [hstep, ih2 j hj, Store.getMap_setMap_ne _ _ _ _ hj]
    · rw [hstep]
      exact List.Sublist.trans ih3 hsub
    · rw [hstep, ih4, Store.maps_length_setMap]

theorem deleteComponents_wf {m : Nat} (refs : List CompRef) {s : Store}
    (hv : ValidMap s m) (hnd : DistinctVals s m) :
    ValidMap (deleteComponents m refs s) m ∧
    DistinctVals (deleteComponents m refs s) m := by
  obtain ⟨h1, _, h3, h4⟩ := @deleteComponents_spec m refs s
  refine ⟨⟨?_, ?_⟩, ?_⟩
  · rw [h4]
    exact hv.1
  · intro p hp
    have hlen : (deleteComponents m refs s).vals.length = s.vals.length := by
      rw [h1]
    rw [hlen]
    exact hv.2 p (h3.subset hp)
  · exact List.Nodup.sublist (h3.map Prod.snd) hnd

/-! ### Frame reasoning: `extend` never touches the parent's objects -/

theorem clone_some_frame {s : Store} {m : Nat} (hv : ValidMap s m) :
    FrameInv s.vals.length s.maps.length (cloneAdaptationMap (some m) s).1 s
      (cloneAdaptationMap (some m) s).2 := by
  obtain ⟨_, h2, h3, h4, h5, h6, h7, h8, h9⟩ := cloneAdaptationMap_spec m s hv.1 hv.2
  exact ⟨⟨h4, h5, h6, h7⟩, ⟨h8, h9⟩, h2, h3⟩

theorem clone_none_frame (s : Store) :
    FrameInv s.vals.length s.maps.length (cloneAdaptationMap none s).1 s
      (cloneAdaptationMap none s).2 := by
  obtain ⟨_, hgm, hvals, hmaps, hid⟩ := cloneAdaptationMap_none_spec s
  refine ⟨⟨?_, ?_, ?_, ?_⟩, ⟨?_, ?_⟩, ⟨?_, ?_⟩, ?_⟩
  · rw [hvals]
  · rw [hmaps, List.length_append]
    exact Nat.le_add_right _ _
  · intro i _
    show (cloneAdaptationMap none s).2.vals.getD i noAdaptations =
      s.vals.getD i noAdaptations
    rw [hvals]
  · intro j hj
    show (cloneAdaptationMap none s).2.maps.getD j [] = s.maps.getD j []
    rw [hmaps]
    exact List.getD_append _ _ _ _ hj
  · rw [hid]
  · intro p hp
    rw [hgm] at hp
    exact absurd hp (List.not_mem_nil p)
  · rw [hid, hmaps, List.length_append]
    exact Nat.lt_succ_self _
  · intro p hp
    rw [hgm] at hp
    exact absurd hp (List.not_mem_nil p)
  · unfold DistinctVals
    rw [hgm]
    exact List.nodup_nil

theorem deleteComponents_frame {nv nm mId : Nat} {s0 s : Store}
    (refs : List CompRef) (h : FrameInv nv nm mId s0 s) :
    FrameInv nv nm mId s0 (deleteComponents mId refs s) := by
  obtain ⟨⟨he1, he2, he3, he4⟩, ⟨hf1, hf2⟩, hv, hnd⟩ := h
  obtain ⟨h1, h2, h3, h4⟩ := @deleteComponents_spec mId refs s
  obtain ⟨hv', hnd'⟩ := deleteComponents_wf refs hv hnd
  have hvals : ∀ i, (deleteComponents mId refs s).getVal i = s.getVal i := by
    intro i
    show (deleteComponents mId refs s).vals.getD i noAdaptations =
      s.vals.getD i noAdaptations
    rw [h1]
  refine ⟨⟨?_, ?_, ?_, ?_⟩, ⟨hf1, ?_⟩, hv', hnd'⟩
  · have : (deleteComponents mId refs s).vals.length = s.vals.length := by
      rw [h1]
    rw [this]
    exact he1
  · rw [h4]
    exact he2
  · intro i hi
    rw [hvals i]
    exact he3 i hi
  · intro j hj
    rw [h2 j (Nat.ne_of_lt (Nat.lt_of_lt_of_le hj hf1))]
    exact he4 j hj
  · intro p hp
    exact hf2 p (h3.subset hp)

theorem applyExclusions_skip {m : Nat} {ep : Option (List String)}
    {ex : Option (List ComponentAdaptation)} (s : Store)
    (hc : (ep.isSome || ex.isSome) = false) :
    applyExclusions m ep ex s = s := by
  unfold applyExclusions
  rw [hc]
  simp only [Bool.false_eq_true, if_false]

theorem applyExclusions_frame {nv nm mId : Nat} {s0 s : Store}
    (ep : Option (List String)) (ex : Option (List ComponentAdaptation))
    (h : FrameInv nv nm mId s0 s) :
    FrameInv nv nm mId s0 (applyExclusions mId ep ex s) := by
  obtain ⟨⟨he1, he2, he3, he4⟩, ⟨hf1, hf2⟩, hv, hnd⟩ := h
  cases hc : (ep.isSome || ex.isSome) with
  | false =>
    rw [applyExclusions_skip s hc]
    exact ⟨⟨he1, he2, he3, he4⟩, ⟨hf1, hf2⟩, hv, hnd⟩
  | true =>
    have hstep : applyExclusions mId ep ex s =
        excludeValues (ep.getD []) ((ex.getD []).map fun e => e.key)
          (jsValues (s.getMap mId)) s := by
      unfold applyExclusions
      rw [hc]
      simp only [eq_self_iff_true, if_true]
    obtain ⟨_, hv', hnd'⟩ := applyExclusions_spec hv hnd ep ex hc
    have hndv : (jsValues (s.getMap mId)).Nodup := hnd
    have hbv : ∀ v ∈ jsValues (s.getMap mId), v < s.vals.length := by
      intro v hvm
      obtain ⟨p, hp, hp2⟩ := List.mem_map.mp hvm
      exact hp2 ▸ hv.2 p hp
    obtain ⟨sp1, sp2, sp3, sp4⟩ := excludeValues_spec (ep.getD [])
      ((ex.getD []).map fun e => e.key) (jsValues (s.getMap mId)) s hndv hbv
    have hgm : ∀ j, (excludeValues (ep.getD []) ((ex.getD []).map fun e => e.key)
        (jsValues (s.getMap mId)) s).getMap j = s.getMap j := by
      intro j
      show (excludeValues (ep.getD []) ((ex.getD []).map fun e => e.key)
        (jsValues (s.getMap mId)) s).maps.getD j [] = s.maps.getD j []
      rw [sp3]
    have hml : (excludeValues (ep.getD []) ((ex.getD []).map fun e => e.key)
        (jsValues (s.getMap mId)) s).maps.length = s.maps.length := by
      rw [sp3]
    refine ⟨⟨?_, ?_, ?_, ?_⟩, ⟨hf1, ?_⟩, hv', hnd'⟩
    · rw [hstep, sp4]
      exact he1
    · rw [hstep, hml]
      exact he2
    · intro i hi
      rw [hstep, sp2 i ?_]
      · exact he3 i hi
      · intro hmem
        obtain ⟨p, hp, hp2⟩ := List.mem_map.mp hmem
        have := hf2 p hp
        rw [hp2] at this
        exact Nat.not_lt.mpr this hi
    · intro j hj
      rw [hstep, hgm j]
      exact he4 j hj
    · intro p hp
      rw [hstep, hgm mId] at hp
      exact hf2 p hp

theorem appendOne_frame {nv nm mId : Nat} {s0 s : Store}
    (a : ComponentAdaptation) (h : FrameInv nv nm mId s0 s) :
    FrameInv nv nm mId s0 (appendOne mId a s) := by
  obtain ⟨⟨he1, he2, he3, he4⟩, ⟨hf1, hf2⟩, hv, hnd⟩ := h
  obtain ⟨hv', hnd'⟩ := appendOne_wf a hv hnd
  cases hg : jsGet (s.getMap mId) a.ref.id with
  | some vid =>
    obtain ⟨h1, _, h3, h4, h5⟩ := appendOne_hit hv hg
    refine ⟨⟨?_, ?_, ?_, ?_⟩, ⟨hf1, ?_⟩, hv', hnd'⟩
    · rw [h4]
      exact he1
    · rw [h5]
      exact he2
    · intro i hi
      rw [h3 i ?_]
      · exact he3 i hi
      · have := hf2 _ (jsGet_mem hg)
        intro heq
        rw [heq] at hi
        exact Nat.not_lt.mpr this hi
    · intro j hj
      rw [h1 j]
      exact he4 j hj
    · intro p hp
      rw [h1 mId] at hp
      exact hf2 p hp
  | none =>
    obtain ⟨h1, h2, _, h4, h5, h6⟩ := appendOne_miss hv hg
    refine ⟨⟨?_, ?_, ?_, ?_⟩, ⟨hf1, ?_⟩, hv', hnd'⟩
    · rw [h5]
      exact Nat.le_succ_of_le he1
    · rw [h6]
      exact he2
    · intro i hi
      rw [h4 i (Nat.lt_of_lt_of_le hi he1)]
      exact he3 i hi
    · intro j hj
      rw [h2 j (Nat.ne_of_lt (Nat.lt_of_lt_of_le hj hf1))]
      exact he4 j hj
    · intro p hp
      rw [h1] at hp
      rcases List.mem_append.mp hp with hm | hm
      · exact hf2 p hm
      · simp only [List.mem_singleton] at hm
        rw [hm]
        exact he1

theorem appendAdaptationMap_frame {nv nm mId : Nat} {s0 : Store} :
    ∀ (ads : List ComponentAdaptation) (s : Store), FrameInv nv nm mId s0 s →
    FrameInv nv nm mId s0 (appendAdaptationMap mId ads s)
  | [], _, h => h
  | a :: rest, s, h =>
    appendAdaptationMap_frame rest (appendOne mId a s) (appendOne_frame a h)

theorem extend_frame_inv (s : Store) (m : Nat) (opts : ExtendOptions)
    (hv : ValidMap s m) :
    FrameInv s.vals.length s.maps.length (extend (some m) opts s).1 s
      (extend (some m) opts s).2 := by
  obtain ⟨ads, reset, ep, ecs, ex⟩ := opts
  cases reset with
  | false =>
    cases ecs with
    | none =>
      cases ads with
      | none =>
        exact applyExclusions_frame ep ex (clone_some_frame hv)
      | some l =>
        exact appendAdaptationMap_frame l _
          (applyExclusions_frame ep ex (clone_some_frame hv))
    | some refs =>
      cases ads with
      | none =>
        exact applyExclusions_frame ep ex
          (deleteComponents_frame refs (clone_some_frame hv))
      | some l =>
        exact appendAdaptationMap_frame l _
          (applyExclusions_frame ep ex
            (deleteComponents_frame refs (clone_some_frame hv)))
  | true =>
    cases ecs with
    | none =>
      cases ads with
      | none =>
        exact applyExclusions_frame ep ex (clone_none_frame s)
      | some l =>
        exact appendAdaptationMap_frame l _
          (applyExclusions_frame ep ex (clone_none_frame s))
    | some refs =>
      cases ads with
      | none =>
        exact applyExclusions_frame ep ex
          (deleteComponents_frame refs (clone_none_frame s))
      | some l =>
        exact appendAdaptationMap_frame l _
          (applyExclusions_frame ep ex
            (deleteComponents_frame refs (clone_none_frame s)))

theorem extend_parent_lookup (s : Store) (m : Nat) (opts : ExtendOptions)
    (hv : ValidMap s m) (r : CompRef) :
    lookup (extend (some m) opts s).2 m r = lookup s m r := by
  obtain ⟨⟨_, _, he3, he4⟩, _, _, _⟩ := extend_frame_inv s m opts hv
  rw [lookup_eq_entryView, lookup_eq_entryView, he4 m hv.1]
  unfold entryView
  cases hg : jsGet (s.getMap m) r.id with
  | none => rfl
  | some vid => exact he3 vid (hv.2 _ (jsGet_mem hg))

/-! ### Composition helpers for `extend` -/

theorem extend_wf (s : Store) (m : Nat) (opts : ExtendOptions) (hv : ValidMap s m) :
    ValidMap (extend (some m) opts s).2 (extend (some m) opts s).1 ∧
    DistinctVals (extend (some m) opts s).2 (extend (some m) opts s).1 := by
  obtain ⟨_, _, h3, h4⟩ := extend_frame_inv s m opts hv
  exact ⟨h3, h4⟩

theorem applyAdaptation_components (a : ComponentAdaptation) (v : AdaptationMapValue) :
    (applyAdaptation a v).components = (applyComponentValue a v).components :=
  applyInterceptorValue_components a (applyComponentValue a v)

/-- `extend` with only an `adaptations` list, viewed at one key. -/
theorem extend_single_view (s : Store) (m : Nat) (hv : ValidMap s m)
    (hnd : DistinctVals s m) (A : ComponentAdaptation) (key : String) :
    viewKey (extend (some m)
        { adaptations := some [A], reset := false, excludePlugins := none,
          excludeComponents := none, exclude := none } s).2
      (extend (some m)
        { adaptations := some [A], reset := false, excludePlugins := none,
          excludeComponents := none, exclude := none } s).1 key =
      (if key = A.ref.id then applyAdaptation A (viewKey s m key)
       else viewKey s m key) := by
  obtain ⟨hview, hvC, hndC, _, _, _, _, _, _⟩ := cloneAdaptationMap_spec m s hv.1 hv.2
  have hcv : viewKey (cloneAdaptationMap (some m) s).2 (cloneAdaptationMap (some m) s).1 key =
      viewKey s m key := hview ⟨key⟩
  show viewKey (appendOne (cloneAdaptationMap (some m) s).1 A
      (cloneAdaptationMap (some m) s).2) (cloneAdaptationMap (some m) s).1 key = _
  by_cases hkey : key = A.ref.id
  · rw [if_pos hkey, hkey]
    rw [appendOne_view_target hvC]
    have hcv2 : viewKey (cloneAdaptationMap (some m) s).2 (cloneAdaptationMap (some m) s).1
        A.ref.id = viewKey s m A.ref.id := hview ⟨A.ref.id⟩
    rw [hcv2]
  · rw [if_neg hkey]
    rw [appendOne_view_other hvC hndC key hkey, hcv]

/-! ### The claims -/

/-- C1: `extend` never mutates the parent registry: for every parent (any
valid registry) and every option record, every lookup on the parent is
unchanged after the call; and in the particular scenario where the parent's
ref `X` holds one component and a new adaptation for `X` (with a fresh key)
is added, the parent still reads the original single-element list (by the
first conjunct) while the child registry's `components` for `X` has two
elements, the inherited one first. -/
theorem extend_never_mutates_parent (s : Store) (m : Nat)
    (hv : ValidMap s m) :
    (∀ (opts : ExtendOptions) (r : CompRef),
      lookup (extend (some m) opts s).2 m r = lookup s m r) ∧
    (DistinctVals s m →
      ∀ (X : CompRef) (e0 : AdaptEntry) (R : Nat) (A : ComponentAdaptation),
      (lookup s m X).components = [e0] → A.ref = X →
      A.spec.Adaptation = some R → e0.adaptation.key ≠ A.key →
      (lookup (extend (some m) (adaptationsOnly [A]) s).2
          (extend (some m) (adaptationsOnly [A]) s).1 X).components =
        [e0, { component := R, adaptation := A }]) := by
  constructor
  · intro opts r
    exact extend_parent_lookup s m opts hv r
  · intro hnd X e0 R A hX hA1 hAr hk
    have h := extend_single_view s m hv hnd A X.id
    rw [if_pos (by rw [hA1])] at h
    rw [lookup_eq_viewKey]
    simp only [adaptationsOnly]
    rw [h, applyAdaptation_components]
    have hvc : (viewKey s m X.id).components = [e0] := hX
    have hbne : (e0.adaptation.key == A.key) = false :=
      beq_eq_false_iff_ne.mpr hk
    have hfind : (List.find? (fun c => c.adaptation.key == A.key)
        (viewKey s m X.id).components).isSome = false := by
      rw [hvc]
      simp [List.find?, hbne]
    unfold applyComponentValue
    rw [hAr]
    simp only [hfind, Bool.false_eq_true, if_false]
    show (viewKey s m X.id).components ++ [{ component := R, adaptation := A }] = _
    rw [hvc]
    rfl

/-- C2: a lookup miss returns the shared `noAdaptations` singleton, and any
two misses, on any registries, return the very same value. -/
theorem lookup_miss_shared_empty (s : Store) (m : Nat) (r : CompRef)
    (h : jsGet (s.getMap m) r.id = none) :
    lookup s m r = noAdaptations ∧
    (∀ (s' : Store) (m' : Nat) (r' : CompRef),
      jsGet (s'.getMap m') r'.id = none → lookup s m r = lookup s' m' r') := by
  have hmain : ∀ (s0 : Store) (m0 : Nat) (r0 : CompRef),
      jsGet (s0.getMap m0) r0.id = none → lookup s0 m0 r0 = noAdaptations := by
    intro s0 m0 r0 h0
    rw [lookup_eq_entryView]
    unfold entryView
    rw [h0]
  refine ⟨hmain s m r h, ?_⟩
  intro s' m' r' h'
  rw [hmain s m r h, hmain s' m' r' h']

/-- C7: `extend(parent, { reset: true })` discards the parent entirely: every
lookup on the resulting registry returns the shared empty singleton. -/
theorem extend_reset_clears (s : Store) (parent : Option Nat) (r : CompRef) :
    lookup (extend parent resetOnly s).2 (extend parent resetOnly s).1 r =
      noAdaptations :=
  (cloneAdaptationMap_none_spec s).1 r

/-- C8: an adaptation whose spec has neither a replacement nor an interceptor
is accepted and contributes nothing: every lookup is unchanged, and the target
reference (previously unregistered) still reads the empty value. -/
theorem empty_spec_contributes_nothing (s : Store) (m : Nat)
    (hv : ValidMap s m) (hnd : DistinctVals s m) (A : ComponentAdaptation)
    (hAr : A.spec.Adaptation = none) (hAi : A.spec.interceptProps = none)
    (hmiss : jsGet (s.getMap m) A.ref.id = none) :
    (∀ r : CompRef,
      lookup (extend (some m) (adaptationsOnly [A]) s).2
        (extend (some m) (adaptationsOnly [A]) s).1 r = lookup s m r) ∧
    lookup (extend (some m) (adaptationsOnly [A]) s).2
      (extend (some m) (adaptationsOnly [A]) s).1 A.ref = noAdaptations := by
  have happ : applyAdaptation A noAdaptations = noAdaptations := by
    unfold applyAdaptation applyComponentValue applyInterceptorValue
    rw [hAr, hAi]
  have hno : viewKey s m A.ref.id = noAdaptations := by
    unfold viewKey entryView
    rw [hmiss]
  have hmain : ∀ key, viewKey (extend (some m) (adaptationsOnly [A]) s).2
      (extend (some m) (adaptationsOnly [A]) s).1 key = viewKey s m key := by
    intro key
    have h := extend_single_view s m hv hnd A key
    simp only [adaptationsOnly]
    by_cases hkey : key = A.ref.id
    · rw [if_pos hkey] at h
      rw [h, hkey, hno, happ]
    · rw [if_neg hkey] at h
      rw [h]
  refine ⟨fun r => hmain r.id, ?_⟩
  rw [lookup_eq_viewKey, hmain A.ref.id]
  exact hno

/-- C9: registry entries are keyed by the reference's `id` string, not object
identity: two separately-constructed refs with the same `id` always resolve to
the same entry, and an adaptation registered under one is returned by `lookup`
invoked with the other. -/
theorem registry_keyed_by_id (s : Store) (m : Nat)
    (hv : ValidMap s m) (hnd : DistinctVals s m) (r1 r2 : CompRef)
    (hid : r1.id = r2.id) (R : Nat) (A : ComponentAdaptation)
    (hA1 : A.ref = r1) (hAr : A.spec.Adaptation = some R)
    (hmiss : jsGet (s.getMap m) r1.id = none) :
    (∀ (s0 : Store) (m0 : Nat), lookup s0 m0 r1 = lookup s0 m0 r2) ∧
    (lookup (extend (some m) (adaptationsOnly [A]) s).2
        (extend (some m) (adaptationsOnly [A]) s).1 r2).components =
      [{ component := R, adaptation := A }] := by
  constructor
  · intro s0 m0
    rw [lookup_eq_viewKey, lookup_eq_viewKey, hid]
  · have hcond : r2.id = A.ref.id := by rw [hA1, ← hid]
    have h := extend_single_view s m hv hnd A r2.id
    rw [if_pos hcond] at h
    rw [lookup_eq_viewKey]
    simp only [adaptationsOnly]
    rw [h, applyAdaptation_components]
    have hmiss2 : jsGet (s.getMap m) r2.id = none := hid ▸ hmiss
    have hno : viewKey s m r2.id = noAdaptations := by
      unfold viewKey entryView
      rw [hmiss2]
    rw [hno]
    unfold applyComponentValue
    rw [hAr]
    rfl

/-- C3: per-list key dedup, first write wins: extending with `A` (key `k`,
replacement `R1`) for a fresh ref `X` and then, in a later extend, with any
adaptation `B` also keyed `k` carrying replacement `R2` for `X`, leaves the
`components` list for `X` at exactly the entry for `A` with `R1`. -/
theorem dedup_first_write_wins (s : Store) (m : Nat)
    (hv : ValidMap s m) (hnd : DistinctVals s m) (X : CompRef) (k : String)
    (R1 R2 : Nat) (A B : ComponentAdaptation)
    (hA1 : A.ref = X) (hB1 : B.ref = X) (hAk : A.key = k) (hBk : B.key = k)
    (hAr : A.spec.Adaptation = some R1) (hBr : B.spec.Adaptation = some R2)
    (hmiss : jsGet (s.getMap m) X.id = none) :
    (lookup
      (extend (some (extend (some m) (adaptationsOnly [A]) s).1)
        (adaptationsOnly [B]) (extend (some m) (adaptationsOnly [A]) s).2).2
      (extend (some (extend (some m) (adaptationsOnly [A]) s).1)
        (adaptationsOnly [B]) (extend (some m) (adaptationsOnly [A]) s).2).1
      X).components = [{ component := R1, adaptation := A }] := by
  have hno : viewKey s m X.id = noAdaptations := by
    unfold viewKey entryView
    rw [hmiss]
  have h1 := extend_single_view s m hv hnd A X.id
  rw [if_pos (by rw [hA1])] at h1
  have hcompE1 : (viewKey (extend (some m) (adaptationsOnly [A]) s).2
      (extend (some m) (adaptationsOnly [A]) s).1 X.id).components =
      [{ component := R1, adaptation := A }] := by
    show (viewKey (extend (some m)
        { adaptations := some [A], reset := false, excludePlugins := none,
          excludeComponents := none, exclude := none } s).2
      (extend (some m)
        { adaptations := some [A], reset := false, excludePlugins := none,
          excludeComponents := none, exclude := none } s).1 X.id).components = _
    rw [h1, applyAdaptation_components, hno]
    unfold applyComponentValue
    rw [hAr]
    rfl
  obtain ⟨hvE1, hndE1⟩ := extend_wf s m (adaptationsOnly [A]) hv
  have h2 := extend_single_view (extend (some m) (adaptationsOnly [A]) s).2
    (extend (some m) (adaptationsOnly [A]) s).1 hvE1 hndE1 B X.id
  rw [if_pos (by rw [hB1])] at h2
  rw [lookup_eq_viewKey]
  simp only [adaptationsOnly]
  simp only [adaptationsOnly] at h2
  rw [h2, applyAdaptation_components]
  have hbeq : (A.key == B.key) = true := by
    rw [hAk, hBk]
    exact beq_self_eq_true k
  have hfind : (List.find? (fun c => c.adaptation.key == B.key)
      (viewKey (extend (some m) (adaptationsOnly [A]) s).2
        (extend (some m) (adaptationsOnly [A]) s).1 X.id).components).isSome = true := by
    rw [hcompE1]
    simp [List.find?, hbeq]
  simp only [adaptationsOnly] at hfind hcompE1
  unfold applyComponentValue
  rw [hBr]
  simp only [hfind, eq_self_iff_true, if_true]
  exact hcompE1

/-- C4: list order is insertion order: for every parent registry and every
reference, entries inherited from the ancestor registry precede the entries
appended by the descendant's extend (the parent's `components` list is a
prefix of the child's); and one extend with `[A, B]` (same fresh ref,
distinct keys, both replacements) yields `components = [A-entry, B-entry]`. -/
theorem insertion_order_preserved (s : Store) (m : Nat)
    (hv : ValidMap s m) (hnd : DistinctVals s m) :
    (∀ (X : CompRef) (ads : List ComponentAdaptation), ∃ tl,
      (lookup (extend (some m) (adaptationsOnly ads) s).2
          (extend (some m) (adaptationsOnly ads) s).1 X).components =
        (lookup s m X).components ++ tl) ∧
    (∀ (X : CompRef) (R1 R2 : Nat) (A B : ComponentAdaptation),
      A.ref = X → B.ref = X → A.key ≠ B.key →
      A.spec.Adaptation = some R1 → B.spec.Adaptation = some R2 →
      jsGet (s.getMap m) X.id = none →
      (lookup (extend (some m) (adaptationsOnly [A, B]) s).2
          (extend (some m) (adaptationsOnly [A, B]) s).1 X).components =
        [{ component := R1, adaptation := A },
         { component := R2, adaptation := B }]) := by
  obtain ⟨hviewC, hvC, hndC, _, _, _, _, _, _⟩ := cloneAdaptationMap_spec m s hv.1 hv.2
  constructor
  · intro X ads
    obtain ⟨tl, htl⟩ := appendAdaptationMap_components_grow ads
      (cloneAdaptationMap (some m) s).2 hvC hndC X.id
    refine ⟨tl, ?_⟩
    rw [lookup_eq_viewKey]
    simp only [adaptationsOnly]
    show (viewKey (appendAdaptationMap (cloneAdaptationMap (some m) s).1 ads
        (cloneAdaptationMap (some m) s).2) (cloneAdaptationMap (some m) s).1
        X.id).components = _
    rw [htl]
    have := hviewC X
    rw [lookup_eq_viewKey, lookup_eq_viewKey] at this
    rw [this]
    rfl
  · intro X R1 R2 A B hA1 hB1 hkne hAr hBr hmiss
    have hnoC : viewKey (cloneAdaptationMap (some m) s).2
        (cloneAdaptationMap (some m) s).1 X.id = noAdaptations := by
      have := hviewC X
      rw [lookup_eq_viewKey, lookup_eq_viewKey] at this
      rw [this]
      unfold viewKey entryView
      rw [hmiss]
    -- the store after appending A
    have hA1id : X.id = A.ref.id := by rw [hA1]
    have hB1id : X.id = B.ref.id := by rw [hB1]
    obtain ⟨hvA, hndA⟩ := appendOne_wf A hvC hndC
    have hviewA : viewKey (appendOne (cloneAdaptationMap (some m) s).1 A
        (cloneAdaptationMap (some m) s).2) (cloneAdaptationMap (some m) s).1 X.id =
        applyAdaptation A noAdaptations := by
      rw [hA1id, appendOne_view_target hvC, ← hA1id, hnoC]
    have hcompA : (viewKey (appendOne (cloneAdaptationMap (some m) s).1 A
        (cloneAdaptationMap (some m) s).2) (cloneAdaptationMap (some m) s).1
        X.id).components = [{ component := R1, adaptation := A }] := by
      rw [hviewA, applyAdaptation_components]
      unfold applyComponentValue
      rw [hAr]
      rfl
    have hbne : (A.key == B.key) = false := beq_eq_false_iff_ne.mpr hkne
    have hfindB : (List.find? (fun c => c.adaptation.key == B.key)
        (viewKey (appendOne (cloneAdaptationMap (some m) s).1 A
          (cloneAdaptationMap (some m) s).2) (cloneAdaptationMap (some m) s).1
          X.id).components).isSome = false := by
      rw [hcompA]
      simp [List.find?, hbne]
    rw [lookup_eq_viewKey]
    simp only [adaptationsOnly]
    show (viewKey (appendOne (cloneAdaptationMap (some m) s).1 B
        (appendOne (cloneAdaptationMap (some m) s).1 A
          (cloneAdaptationMap (some m) s).2))
      (cloneAdaptationMap (some m) s).1 X.id).components = _
    rw [hB1id, appendOne_view_target hvA, ← hB1id, applyAdaptation_components]
    unfold applyComponentValue
    rw [hBr]
    simp only [hfindB, Bool.false_eq_true, if_false]
    show (viewKey (appendOne (cloneAdaptationMap (some m) s).1 A
        (cloneAdaptationMap (some m) s).2) (cloneAdaptationMap (some m) s).1
        X.id).components ++ [{ component := R2, adaptation := B }] = _
    rw [hcompA]
    rfl

/-- C6: the plugin/key exclusion step filters only the `components` lists;
the `propsInterceptors` list of every entry is left completely unchanged. -/
theorem exclusion_spares_interceptors (s : Store) (m : Nat)
    (hv : ValidMap s m) (hnd : DistinctVals s m) (ep : Option (List String))
    (ex : Option (List ComponentAdaptation))
    (hc : (ep.isSome || ex.isSome) = true) (r : CompRef) :
    (lookup (extend (some m) (exclusionsOnly ep ex) s).2
        (extend (some m) (exclusionsOnly ep ex) s).1 r).propsInterceptors =
      (lookup s m r).propsInterceptors ∧
    lookup (extend (some m) (exclusionsOnly ep ex) s).2
        (extend (some m) (exclusionsOnly ep ex) s).1 r =
      filterExcluded (ep.getD []) ((ex.getD []).map fun e => e.key)
        (lookup s m r) := by
  obtain ⟨hviewC, hvC, hndC, _, _, _, _, _, _⟩ := cloneAdaptationMap_spec m s hv.1 hv.2
  obtain ⟨hexcv, _, _⟩ := applyExclusions_spec hvC hndC ep ex hc
  have hclr : viewKey (cloneAdaptationMap (some m) s).2
      (cloneAdaptationMap (some m) s).1 r.id = viewKey s m r.id := hviewC r
  have hmain : lookup (extend (some m) (exclusionsOnly ep ex) s).2
      (extend (some m) (exclusionsOnly ep ex) s).1 r =
      filterExcluded (ep.getD []) ((ex.getD []).map fun e => e.key)
        (lookup s m r) := by
    rw [lookup_eq_viewKey]
    simp only [exclusionsOnly]
    show viewKey (applyExclusions (cloneAdaptationMap (some m) s).1 ep ex
        (cloneAdaptationMap (some m) s).2) (cloneAdaptationMap (some m) s).1 r.id = _
    rw [hexcv r.id, hclr]
    rfl
  exact ⟨by rw [hmain]; exact filterExcluded_props _ _ _, hmain⟩

/-- C5: option order — `excludePlugins` filtering runs before `adaptations`,
so with a parent whose ref `X` holds components from plugin `P1` (key `a`) and
plugin `P2` (key `b`), extending with `excludePlugins = [P1]` and a new
adaptation keyed `b` drops `a`'s entry, keeps `b`'s pre-existing entry, and
does not append a duplicate keyed `b` (dedup sees the surviving `b`). -/
theorem exclusion_order_respected (s : Store) (m : Nat)
    (hv : ValidMap s m) (hnd : DistinctVals s m) (X : CompRef)
    (ea eb : AdaptEntry) (P1 P2 b : String) (R2 : Nat)
    (B' : ComponentAdaptation)
    (hX : (lookup s m X).components = [ea, eb])
    (hplA : ea.adaptation.plugin = some P1)
    (hplB : eb.adaptation.plugin = some P2) (hPne : P1 ≠ P2)
    (hebk : eb.adaptation.key = b)
    (hB1 : B'.ref = X) (hBk : B'.key = b) (hBr : B'.spec.Adaptation = some R2) :
    (lookup (extend (some m) (excludePluginsAndAdapt [P1] [B']) s).2
        (extend (some m) (excludePluginsAndAdapt [P1] [B']) s).1 X).components =
      [eb] := by
  obtain ⟨hviewC, hvC, hndC, _, _, _, _, _, _⟩ := cloneAdaptationMap_spec m s hv.1 hv.2
  have hc : ((some [P1] : Option (List String)).isSome ||
      (none : Option (List ComponentAdaptation)).isSome) = true := rfl
  obtain ⟨hexcv, hvE, hndE⟩ := applyExclusions_spec hvC hndC (some [P1]) none hc
  have hXB : X.id = B'.ref.id := by rw [hB1]
  have hclX : viewKey (cloneAdaptationMap (some m) s).2
      (cloneAdaptationMap (some m) s).1 X.id = viewKey s m X.id := hviewC X
  have hSEX : viewKey (applyExclusions (cloneAdaptationMap (some m) s).1
      (some [P1]) none (cloneAdaptationMap (some m) s).2)
      (cloneAdaptationMap (some m) s).1 X.id =
      filterExcluded [P1] [] (viewKey s m X.id) := by
    rw [hexcv X.id, hclX]
    rfl
  have hcomp : (viewKey (applyExclusions (cloneAdaptationMap (some m) s).1
      (some [P1]) none (cloneAdaptationMap (some m) s).2)
      (cloneAdaptationMap (some m) s).1 X.id).components = [eb] := by
    rw [hSEX]
    show List.filter _ (List.filter _ (viewKey s m X.id).components) = [eb]
    have hXv : (viewKey s m X.id).components = [ea, eb] := hX
    rw [hXv]
    simp [List.filter_cons, hplA, hplB, List.contains_cons, Ne.symm hPne]
  have hbeq : (eb.adaptation.key == B'.key) = true := by
    rw [hebk, hBk]
    exact beq_self_eq_true b
  have hfind : (List.find? (fun c => c.adaptation.key == B'.key)
      (viewKey (applyExclusions (cloneAdaptationMap (some m) s).1
        (some [P1]) none (cloneAdaptationMap (some m) s).2)
        (cloneAdaptationMap (some m) s).1 X.id).components).isSome = true := by
    rw [hcomp]
    simp [List.find?, hbeq]
  rw [lookup_eq_viewKey]
  simp only [excludePluginsAndAdapt]
  show (viewKey (appendOne (cloneAdaptationMap (some m) s).1 B'
      (applyExclusions (cloneAdaptationMap (some m) s).1 (some [P1]) none
        (cloneAdaptationMap (some m) s).2))
    (cloneAdaptationMap (some m) s).1 X.id).components = [eb]
  rw [hXB, appendOne_view_target hvE, ← hXB, applyAdaptation_components]
  unfold applyComponentValue
  rw [hBr]
  simp only [hfind, eq_self_iff_true, if_true]
  exact hcomp

/-- C10: because exclusion filtering runs before the adaptations step within
one extend, an excluded key can be re-introduced in the same call: excluding
the old adaptation keyed `k` and adding a new one keyed `k` for `X` yields a
`components` list that contains the new entry — and it is the only entry
keyed `k`. -/
theorem exclude_then_readd_same_key (s : Store) (m : Nat)
    (hv : ValidMap s m) (hnd : DistinctVals s m) (X : CompRef) (k : String)
    (R : Nat) (Ad B : ComponentAdaptation)
    (hAdk : Ad.key = k) (hB1 : B.ref = X) (hBk : B.key = k)
    (hBr : B.spec.Adaptation = some R) :
    ({ component := R, adaptation := B } ∈
      (lookup (extend (some m) (excludeAndAdapt [Ad] [B]) s).2
        (extend (some m) (excludeAndAdapt [Ad] [B]) s).1 X).components) ∧
    (∀ e ∈ (lookup (extend (some m) (excludeAndAdapt [Ad] [B]) s).2
        (extend (some m) (excludeAndAdapt [Ad] [B]) s).1 X).components,
      e.adaptation.key = k → e = { component := R, adaptation := B }) := by
  obtain ⟨hviewC, hvC, hndC, _, _, _, _, _, _⟩ := cloneAdaptationMap_spec m s hv.1 hv.2
  have hc : ((none : Option (List String)).isSome ||
      (some [Ad] : Option (List ComponentAdaptation)).isSome) = true := rfl
  obtain ⟨hexcv, hvE, hndE⟩ := applyExclusions_spec hvC hndC none (some [Ad]) hc
  have hXB : X.id = B.ref.id := by rw [hB1]
  have hclX : viewKey (cloneAdaptationMap (some m) s).2
      (cloneAdaptationMap (some m) s).1 X.id = viewKey s m X.id := hviewC X
  have hSEX : viewKey (applyExclusions (cloneAdaptationMap (some m) s).1
      none (some [Ad]) (cloneAdaptationMap (some m) s).2)
      (cloneAdaptationMap (some m) s).1 X.id =
      filterExcluded [] [Ad.key] (viewKey s m X.id) := by
    rw [hexcv X.id, hclX]
    rfl
  have hSkeys : ∀ e ∈ (filterExcluded [] [Ad.key] (viewKey s m X.id)).components,
      (e.adaptation.key == Ad.key) = false := by
    intro e he
    have hp2 := List.of_mem_filter he
    simp only [Bool.not_eq_true'] at hp2
    rw [List.contains_cons] at hp2
    cases hbe : (e.adaptation.key == Ad.key) with
    | false => rfl
    | true =>
      rw [hbe] at hp2
      simp at hp2
  have hfind : List.find? (fun c => c.adaptation.key == B.key)
      (filterExcluded [] [Ad.key] (viewKey s m X.id)).components = none := by
    apply List.find?_eq_none.mpr
    intro e he
    have hkk : B.key = Ad.key := by rw [hBk, hAdk]
    rw [hkk]
    intro hcontra
    rw [hSkeys e he] at hcontra
    exact Bool.false_ne_true hcontra
  have hfinal : (viewKey (extend (some m) (excludeAndAdapt [Ad] [B]) s).2
      (extend (some m) (excludeAndAdapt [Ad] [B]) s).1 X.id).components =
      (filterExcluded [] [Ad.key] (viewKey s m X.id)).components ++
        [{ component := R, adaptation := B }] := by
    simp only [excludeAndAdapt]
    show (viewKey (appendOne (cloneAdaptationMap (some m) s).1 B
        (applyExclusions (cloneAdaptationMap (some m) s).1 none (some [Ad])
          (cloneAdaptationMap (some m) s).2))
      (cloneAdaptationMap (some m) s).1 X.id).components = _
    rw [hXB, appendOne_view_target hvE, ← hXB, applyAdaptation_components]
    unfold applyComponentValue
    rw [hBr]
    have hfind2 : (List.find? (fun c => c.adaptation.key == B.key)
        (viewKey (applyExclusions (cloneAdaptationMap (some m) s).1 none
          (some [Ad]) (cloneAdaptationMap (some m) s).2)
          (cloneAdaptationMap (some m) s).1 X.id).components).isSome = false := by
      rw [hSEX, hfind]
      rfl
    simp only [hfind2, Bool.false_eq_true, if_false]
    show (viewKey (applyExclusions (cloneAdaptationMap (some m) s).1 none
        (some [Ad]) (cloneAdaptationMap (some m) s).2)
      (cloneAdaptationMap (some m) s).1 X.id).components ++ _ = _
    rw [hSEX]
  constructor
  · rw [lookup_eq_viewKey, hfinal]
    exact List.mem_append_right _ (List.mem_singleton_self _)
  · intro e he hek
    rw [lookup_eq_viewKey, hfinal] at he
    rcases List.mem_append.mp he with hm | hm
    · exfalso
      have := hSkeys e hm
      rw [hek, ← hAdk] at this
      rw [beq_self_eq_true] at this
      simp at this
    · exact List.mem_singleton.mp hm

theorem extend_never_mutates_parent_witness :
    ValidMap storeXa 0 ∧
    lookup (extend (some 0) (adaptationsOnly [adB]) storeXa).2 0 refX =
      lookup storeXa 0 refX ∧
    (lookup (extend (some 0) (adaptationsOnly [adB]) storeXa).2
        (extend (some 0) (adaptationsOnly [adB]) storeXa).1 refX).components =
      [entA, { component := 2, adaptation := adB }] :=
  ⟨by decide,
   (extend_never_mutates_parent storeXa 0 (by decide)).1
     (adaptationsOnly [adB]) refX,
   (extend_never_mutates_parent storeXa 0 (by decide)).2 (by decide) refX entA 2
     adB (by decide) (by decide) (by decide) (by decide)⟩

theorem lookup_miss_shared_empty_witness :
    jsGet (storeEmpty.getMap 0) "q" = none ∧
    lookup storeEmpty 0 { id := "q" } = noAdaptations :=
  ⟨by decide, (lookup_miss_shared_empty storeEmpty 0 { id := "q" } (by decide)).1⟩

theorem dedup_first_write_wins_witness :
    (ValidMap storeEmpty 0 ∧ jsGet (storeEmpty.getMap 0) refX.id = none) ∧
    (lookup
      (extend (some (extend (some 0) (adaptationsOnly [adA]) storeEmpty).1)
        (adaptationsOnly [adA2])
        (extend (some 0) (adaptationsOnly [adA]) storeEmpty).2).2
      (extend (some (extend (some 0) (adaptationsOnly [adA]) storeEmpty).1)
        (adaptationsOnly [adA2])
        (extend (some 0) (adaptationsOnly [adA]) storeEmpty).2).1
      refX).components = [{ component := 1, adaptation := adA }] :=
  ⟨⟨by decide, by decide⟩,
   dedup_first_write_wins storeEmpty 0 (by decide) (by decide) refX "a" 1 9
     adA adA2 (by decide) (by decide) (by decide) (by decide) (by decide)
     (by decide) (by decide)⟩

theorem insertion_order_preserved_witness :
    ValidMap storeEmpty 0 ∧ adA.key ≠ adB.key ∧
    jsGet (storeEmpty.getMap 0) refX.id = none ∧
    (lookup (extend (some 0) (adaptationsOnly [adA, adB]) storeEmpty).2
        (extend (some 0) (adaptationsOnly [adA, adB]) storeEmpty).1
        refX).components =
      [{ component := 1, adaptation := adA },
       { component := 2, adaptation := adB }] ∧
    (lookup (extend (some 0) (adaptationsOnly [adB]) storeXa).2
        (extend (some 0) (adaptationsOnly [adB]) storeXa).1 refX).components =
      (lookup storeXa 0 refX).components ++
        [{ component := 2, adaptation := adB }] :=
  ⟨by decide, by decide, by decide,
   (insertion_order_preserved storeEmpty 0 (by decide) (by decide)).2 refX 1 2
     adA adB (by decide) (by decide) (by decide) (by decide) (by decide)
     (by decide),
   by decide⟩

theorem exclusion_order_respected_witness :
    ((lookup storeXab 0 refX).components = [entA, entB] ∧
      entA.adaptation.plugin = some "P1" ∧ entB.adaptation.plugin = some "P2" ∧
      entB.adaptation.key = "b" ∧ adB2.key = "b") ∧
    (lookup (extend (some 0) (excludePluginsAndAdapt ["P1"] [adB2]) storeXab).2
        (extend (some 0) (excludePluginsAndAdapt ["P1"] [adB2]) storeXab).1
        refX).components = [entB] :=
  ⟨⟨by decide, by decide, by decide, by decide, by decide⟩,
   exclusion_order_respected storeXab 0 (by decide) (by decide) refX entA entB
     "P1" "P2" "b" 9 adB2 (by decide) (by decide) (by decide) (by decide)
     (by decide) (by decide) (by decide) (by decide)⟩

theorem exclusion_spares_interceptors_witness :
    (((some ["P1"] : Option (List String)).isSome ||
      (none : Option (List ComponentAdaptation)).isSome) = true ∧
      ValidMap storeXab 0) ∧
    (lookup (extend (some 0) (exclusionsOnly (some ["P1"]) none) storeXab).2
        (extend (some 0) (exclusionsOnly (some ["P1"]) none) storeXab).1
        refX).propsInterceptors = (lookup storeXab 0 refX).propsInterceptors :=
  ⟨⟨by decide, by decide⟩,
   (exclusion_spares_interceptors storeXab 0 (by decide) (by decide)
     (some ["P1"]) none (by decide) refX).1⟩

theorem empty_spec_contributes_nothing_witness :
    (ValidMap storeEmpty 0 ∧
      jsGet (storeEmpty.getMap 0)
        (ComponentAdaptation.mk { id := "Y" }
          { Adaptation := none, interceptProps := none } "z" none).ref.id = none) ∧
    lookup (extend (some 0) (adaptationsOnly
        [ComponentAdaptation.mk { id := "Y" }
          { Adaptation := none, interceptProps := none } "z" none]) storeEmpty).2
      (extend (some 0) (adaptationsOnly
        [ComponentAdaptation.mk { id := "Y" }
          { Adaptation := none, interceptProps := none } "z" none]) storeEmpty).1
      (ComponentAdaptation.mk { id := "Y" }
        { Adaptation := none, interceptProps := none } "z" none).ref =
      noAdaptations :=
  ⟨⟨by decide, by decide⟩,
   (empty_spec_contributes_nothing storeEmpty 0 (by decide) (by decide)
     (ComponentAdaptation.mk { id := "Y" }
       { Adaptation := none, interceptProps := none } "z" none)
     (by decide) (by decide) (by decide)).2⟩

theorem registry_keyed_by_id_witness :
    ((CompRef.mk "Z").id = (CompRef.mk "Z").id ∧ ValidMap storeEmpty 0) ∧
    (lookup (extend (some 0) (adaptationsOnly
        [ComponentAdaptation.mk { id := "Z" }
          { Adaptation := some 5, interceptProps := none } "z" none]) storeEmpty).2
      (extend (some 0) (adaptationsOnly
        [ComponentAdaptation.mk { id := "Z" }
          { Adaptation := some 5, interceptProps := none } "z" none]) storeEmpty).1
      { id := "Z" }).components =
      [{ component := 5,
         adaptation := ComponentAdaptation.mk { id := "Z" }
           { Adaptation := some 5, interceptProps := none } "z" none }] :=
  ⟨⟨rfl, by decide⟩,
   (registry_keyed_by_id storeEmpty 0 (by decide) (by decide)
     { id := "Z" } { id := "Z" } rfl 5
     (ComponentAdaptation.mk { id := "Z" }
       { Adaptation := some 5, interceptProps := none } "z" none)
     (by decide) (by decide) (by decide)).2⟩

theorem exclude_then_readd_same_key_witness :
    (adA.key = "a" ∧ adA2.ref = refX ∧ adA2.key = "a" ∧
      adA2.spec.Adaptation = some 9 ∧ ValidMap storeXa 0) ∧
    ({ component := 9, adaptation := adA2 } ∈
      (lookup (extend (some 0) (excludeAndAdapt [adA] [adA2]) storeXa).2
        (extend (some 0) (excludeAndAdapt [adA] [adA2]) storeXa).1
        refX).components) :=
  ⟨⟨by decide, by decide, by decide, by decide, by decide⟩,
   (exclude_then_readd_same_key storeXa 0 (by decide) (by decide) refX "a" 9
     adA adA2 (by decide) (by decide) (by decide) (by decide)).1⟩

end AdaptationRegistry
